import Mathlib

/-!
# Entity render selection, model release and controller channels

A shallow embedding of three pieces of the repository:

* `EntityTreeRenderer::shouldRenderEntity` and `EntityTreeRenderer::renderElement`
  (`interface/src/entities/EntityTreeRenderer.cpp`),
* `EntityTreeRenderer::releaseModel`, `deleteReleasedModels` and `render`
  (same file),
* the enumerations `StandardButtonChannel` and `StandardAxisChannel`
  (`libraries/controllers/src/controllers/StandardControls.h`).

Conventions of the embedding.

* A `float` is a finite IEEE 754 binary32 number, held as its integer number of units
  of `2^-149` (the smallest positive binary32 number; every finite binary32 number is
  a whole number of these units). Division by `2.0f` and by `4.0f` round to the nearest
  unit, ties to even, as binary32 does; comparisons compare the units. Infinities and
  NaN are not represented: the operations of `shouldRenderEntity` do not produce them
  from finite operands.
* The `while` loop of `shouldRenderEntity` need not terminate, so it is run with a
  fuel: `none` means that the loop condition still held when the fuel ran out.
* `uint16_t` values are naturals reduced modulo `65536` where the source narrows.
* Declarations that live outside the three files (`TREE_SCALE`, `Menu`,
  `boundaryDistanceForRenderLevel`, `AACube`, `ViewFrustum`, `RenderArgs`, the
  entity's own `render`) are parameters or plain records of the values the calls
  return.
-/

/-! ## Binary32 numbers -/

/-- A finite binary32 number, given by its number of units of `2^-149`. -/
structure F32 where
  units : Int
deriving DecidableEq

namespace F32

/-- The rational number a binary32 value stands for. -/
def toRat (x : F32) : ℚ := (x.units : ℚ) / 2 ^ 149

/-- The literal `0.0f`. -/
def zero : F32 := { units := 0 }

/-- The binary32 value of a whole number (exact when its magnitude is below `2^24`). -/
def ofInt (n : Int) : F32 := { units := n * 2 ^ 149 }

/-- The quotient `m / den` (`den > 0`) rounded to the nearest integer, ties to the even
    one. -/
def roundHalfEven (m den : Int) : Int :=
  if 2 * (m % den) < den then m / den
  else if 2 * (m % den) > den then m / den + 1
  else if (m / den) % 2 = 0 then m / den
  else m / den + 1

/-- The operation `x / 2.0f`: the exact half when that is a binary32 number (always so
    for normal results), else the nearest number of units, ties to even. -/
def half (x : F32) : F32 := { units := roundHalfEven x.units 2 }

/-- The operation `x / 4.0f`, rounded in the same way. -/
def quarter (x : F32) : F32 := { units := roundHalfEven x.units 4 }

/-- The operation `x * 2.0f`, exact in binary32 when it does not overflow; it is only
    applied to `visibleDistanceAtScale`, whose magnitude is at most a quarter of that
    of a binary32 number, so it does not overflow. -/
def double (x : F32) : F32 := { units := x.units * 2 }

/-- The comparison `a > b`. -/
def gt (a b : F32) : Bool := decide (a.units > b.units)

/-- The comparison `a < b`. -/
def lt (a b : F32) : Bool := decide (a.units < b.units)

/-- The comparison `a <= b`. -/
def le (a b : F32) : Bool := decide (a.units ≤ b.units)

/-- Whether a number of units is one a binary32 variable can hold: a 24-bit
    significand times a power of two, the exponent of the unit between 0 and 253. -/
def isBinary32 (x : F32) : Bool :=
  (List.range 254).any fun e =>
    decide (x.units.natAbs % 2 ^ e = 0) && decide (x.units.natAbs / 2 ^ e < 2 ^ 24)

end F32

namespace EntityTreeRenderer

/-! ## Collaborators declared outside the source files -/

/-- The two settings `shouldRenderEntity` reads from `Menu::getInstance()` and the one
    option `renderElement` reads (`MenuOption::DisplayModelElementProxy`). -/
structure Menu where
  voxelSizeScale : F32
  boundaryLevelAdjust : Int
  displayModelElementProxy : Bool

/-- What the renderer takes from its surroundings: the value of `(float)TREE_SCALE`,
    the function `boundaryDistanceForRenderLevel`, and the menu singleton. -/
structure Context where
  TREE_SCALE : F32
  boundaryDistanceForRenderLevel : Int → F32 → F32
  menu : Menu

/-! ## `shouldRenderEntity` -/

/-- The two local variables the halving loop updates. -/
structure LodState where
  scale : F32
  visibleDistanceAtScale : F32
deriving DecidableEq

/-- Loop body: `scale /= 2.0f; visibleDistanceAtScale /= 2.0f;`. -/
def halve (s : LodState) : LodState :=
  { scale := s.scale.half, visibleDistanceAtScale := s.visibleDistanceAtScale.half }

/-- Values of the locals on entry to the loop:
    `scale = (float)TREE_SCALE` and
    `visibleDistanceAtScale = boundaryDistanceForRenderLevel(boundaryLevelAdjust, voxelSizeScale) / voxelToModelRatio`
    with `voxelToModelRatio = 4.0f`. -/
def initialLod (ctx : Context) : LodState :=
  { scale := ctx.TREE_SCALE
    visibleDistanceAtScale :=
      (ctx.boundaryDistanceForRenderLevel ctx.menu.boundaryLevelAdjust
        ctx.menu.voxelSizeScale).quarter }

/-- The loop `while (scale > largestDimension) { ... }`; each test of the condition
    uses one unit of fuel, `none` when the fuel is used up with the condition still
    true. -/
def halvingLoop (largestDimension : F32) : Nat → LodState → Option LodState
  | 0, _ => none
  | fuel + 1, s =>
    if F32.gt s.scale largestDimension then halvingLoop largestDimension fuel (halve s)
    else some s

/-- The correction after the loop:
    `if (scale < largestDimension) { visibleDistanceAtScale *= 2.0f; }`,
    giving the value of `visibleDistanceAtScale` at the `return`. -/
def correction (largestDimension : F32) (s : LodState) : F32 :=
  if F32.lt s.scale largestDimension then s.visibleDistanceAtScale.double
  else s.visibleDistanceAtScale

/-- The value of `visibleDistanceAtScale` that `shouldRenderEntity` compares the
    distance with. -/
def visibleDistance (ctx : Context) (fuel : Nat) (largestDimension : F32) : Option F32 :=
  (halvingLoop largestDimension fuel (initialLod ctx)).map (correction largestDimension)

/-- The function `shouldRenderEntity(largestDimension, distanceToCamera)`:
    `return (distanceToCamera <= visibleDistanceAtScale);`. -/
def shouldRenderEntity (ctx : Context) (fuel : Nat) (largestDimension distanceToCamera : F32) :
    Option Bool :=
  (visibleDistance ctx fuel largestDimension).map fun visibleDistanceAtScale =>
    F32.le distanceToCamera visibleDistanceAtScale

/-- The base threshold: `visibleDistanceAtScale` before the loop. -/
def baseThreshold (ctx : Context) : F32 := (initialLod ctx).visibleDistanceAtScale

/-- A size on which the loop cannot leave: it is negative and below the tree scale. -/
def hangs (ctx : Context) (largestDimension : F32) : Prop :=
  largestDimension.units < 0 ∧ largestDimension.units < ctx.TREE_SCALE.units

/-! ## `renderElement` -/

/-- The render mode stored in `RenderArgs`; `renderElement` distinguishes only
    `OctreeRenderer::SHADOW_RENDER_MODE`, every other mode is `otherMode`. -/
inductive RenderMode
  | SHADOW_RENDER_MODE
  | otherMode (code : Nat)
deriving DecidableEq

/-- Result of `ViewFrustum::cubeInFrustum`; `renderElement` names only `OUTSIDE`. -/
inductive ViewFrustum.location
  | OUTSIDE
  | INTERSECT
  | INSIDE
deriving DecidableEq

/-- The fields of `RenderArgs` that `renderElement` reads or writes (the view frustum
    it points to is represented by the values recorded in `EntityItem`). -/
structure RenderArgs where
  _renderMode : RenderMode
  _elementsTouched : Nat
  _itemsOutOfView : Nat
deriving DecidableEq

/-- What `renderElement` obtains from one `EntityItem*` of the list:
    `isVisible()`; for `entityCube = getAACube()` after `entityCube.scale(TREE_SCALE)`
    the values `entityCube.getLargestDimension()`,
    `distanceToCamera(entityCube.calcCenter(), *args->_viewFrustum)` and
    `args->_viewFrustum->cubeInFrustum(entityCube)`; and `getGlowLevel()`. -/
structure EntityItem where
  isVisible : Bool
  largestDimension : F32
  distance : F32
  cubeInFrustum : ViewFrustum.location
  glowLevel : F32
deriving DecidableEq

/-- The calls `renderElement` makes into the graphics side, in the order made:
    `renderElementProxy(entityTreeElement)`, `new Glower(level)`,
    `entityItems[i]->render(args)` (the draw call of list position `i`) and
    `delete glower`. -/
inductive RenderEvent
  | elementProxy
  | glowerBegin (level : F32)
  | entityRender (i : Nat)
  | glowerEnd
deriving DecidableEq

/-- Progress of one `renderElement` call: the render arguments, the calls made so far,
    and `stuck`, set when a `shouldRenderEntity` call used up its fuel (the call has not
    returned and nothing after it has run). -/
structure RenderRun where
  args : RenderArgs
  events : List RenderEvent
  stuck : Bool
deriving DecidableEq

/-- The condition of the inner `if`:
    `shouldRenderEntity(entityCube.getLargestDimension(), distance) &&
     args->_viewFrustum->cubeInFrustum(entityCube) != ViewFrustum::OUTSIDE`
    (`none` when `shouldRenderEntity` does not return within the fuel). -/
def renderCheck (ctx : Context) (fuel : Nat) (entityItem : EntityItem) : Option Bool :=
  (shouldRenderEntity ctx fuel entityItem.largestDimension entityItem.distance).map
    fun accepted => accepted && decide (entityItem.cubeInFrustum ≠ ViewFrustum.location.OUTSIDE)

/-- The calls of the accepting branch for list position `i`: the `Glower` is created
    only when `getGlowLevel() > 0.0f` and deleted after the draw call. -/
def drawEvents (i : Nat) (entityItem : EntityItem) : List RenderEvent :=
  if F32.gt entityItem.glowLevel F32.zero then
    [RenderEvent.glowerBegin entityItem.glowLevel, RenderEvent.entityRender i,
      RenderEvent.glowerEnd]
  else [RenderEvent.entityRender i]

/-- One iteration of `for (uint16_t i = 0; i < numberOfEntities; i++)` with loop
    variable `i`. Once the run is stuck nothing more happens. -/
def renderEntityAt (ctx : Context) (fuel : Nat) (entityItems : List EntityItem)
    (run : RenderRun) (i : Nat) : RenderRun :=
  if run.stuck then run
  else
    match entityItems[i]? with
    | none => run
    | some entityItem =>
      if entityItem.isVisible then
        match renderCheck ctx fuel entityItem with
        | none => { run with stuck := true }
        | some true => { run with events := run.events ++ drawEvents i entityItem }
        | some false =>
          { run with args := { run.args with _itemsOutOfView := run.args._itemsOutOfView + 1 } }
      else run

/-- The value of `uint16_t numberOfEntities = entityItems.size();`: the size of the
    list narrowed to 16 bits. -/
def numberOfEntities (entityItems : List EntityItem) : Nat :=
  entityItems.length % 65536

/-- The loop `for (uint16_t i = 0; i < bound; i++) { ... }` started in `run`: the
    loop variable takes the values `0, …, bound - 1` in order. (In `renderElement` the
    bound is at most `65535`, so `i++` never wraps.) -/
def entityLoop (ctx : Context) (fuel : Nat) (entityItems : List EntityItem) (run : RenderRun)
    (bound : Nat) : RenderRun :=
  (List.range bound).foldl (renderEntityAt ctx fuel entityItems) run

/-- The function `renderElement(element, args)` on the entity list of the element. -/
def renderElement (ctx : Context) (fuel : Nat) (entityItems : List EntityItem)
    (args : RenderArgs) : RenderRun :=
  let args1 : RenderArgs := { args with _elementsTouched := args._elementsTouched + 1 }
  let isShadowMode : Bool := decide (args1._renderMode = RenderMode.SHADOW_RENDER_MODE)
  let displayElementProxy : Bool := ctx.menu.displayModelElementProxy
  let proxy : List RenderEvent :=
    if !isShadowMode && displayElementProxy && decide (numberOfEntities entityItems > 0) then
      [RenderEvent.elementProxy]
    else []
  entityLoop ctx fuel entityItems { args := args1, events := proxy, stuck := false }
    (numberOfEntities entityItems)

/-- An entity the loop counts in `_itemsOutOfView`: it is visible and the inner `if`
    evaluates to false. -/
def culled (ctx : Context) (fuel : Nat) (entityItem : EntityItem) : Bool :=
  entityItem.isVisible && (renderCheck ctx fuel entityItem == some false)

/-- An entity that fails the render check of the inner `if`, whether or not it is
    visible. -/
def failsRenderCheck (ctx : Context) (fuel : Nat) (entityItem : EntityItem) : Bool :=
  renderCheck ctx fuel entityItem == some false

/-! ## Releasing models -/

/-- The part of the renderer the model life cycle touches: the owner thread
    (`thread()`), the list `_releasedModels`, and the record of every `delete model`
    executed, in order. Threads and model pointers are identified by numbers. -/
structure ModelStore where
  thread : Nat
  _releasedModels : List Nat
  deleted : List Nat
deriving DecidableEq

/-- The function `releaseModel(model)` called on thread `currentThread`. -/
def releaseModel (currentThread : Nat) (model : Nat) (r : ModelStore) : ModelStore :=
  if currentThread ≠ r.thread then
    { r with _releasedModels := r._releasedModels ++ [model] }
  else
    { r with deleted := r.deleted ++ [model] }

/-- The function `deleteReleasedModels()`. -/
def deleteReleasedModels (r : ModelStore) : ModelStore :=
  if r._releasedModels.length > 0 then
    { r with deleted := r.deleted ++ r._releasedModels, _releasedModels := [] }
  else r

/-- The function `render(renderMode)`: `OctreeRenderer::render(renderMode)` (the
    base-class traversal, a parameter here) followed by `deleteReleasedModels()`. -/
def render (octreeRendererRender : ModelStore → ModelStore) (r : ModelStore) : ModelStore :=
  deleteReleasedModels (octreeRendererRender r)

end EntityTreeRenderer

/-! ## Controller channels -/

namespace controller

/-! An enumerator is an integer constant. One written with an initialiser has that
value; one written without has the value of the enumerator declared just before it,
plus one. The definitions below follow the declarations line by line. -/

namespace StandardButtonChannel

def A : Int := 0
def B : Int := A + 1
def X : Int := B + 1
def Y : Int := X + 1
def BACK : Int := Y + 1
def GUIDE : Int := BACK + 1
def START : Int := GUIDE + 1
def LS : Int := START + 1
def RS : Int := LS + 1
def LB : Int := RS + 1
def RB : Int := LB + 1
def DU : Int := RB + 1
def DD : Int := DU + 1
def DL : Int := DD + 1
def DR : Int := DL + 1
def LEFT_PRIMARY_THUMB : Int := DR + 1
def LEFT_SECONDARY_THUMB : Int := LEFT_PRIMARY_THUMB + 1
def LEFT_PRIMARY_THUMB_TOUCH : Int := LEFT_SECONDARY_THUMB + 1
def LEFT_SECONDARY_THUMB_TOUCH : Int := LEFT_PRIMARY_THUMB_TOUCH + 1
def LS_TOUCH : Int := LEFT_SECONDARY_THUMB_TOUCH + 1
def LEFT_THUMB_UP : Int := LS_TOUCH + 1
def RIGHT_PRIMARY_THUMB : Int := LEFT_THUMB_UP + 1
def RIGHT_SECONDARY_THUMB : Int := RIGHT_PRIMARY_THUMB + 1
def RIGHT_PRIMARY_THUMB_TOUCH : Int := RIGHT_SECONDARY_THUMB + 1
def RIGHT_SECONDARY_THUMB_TOUCH : Int := RIGHT_PRIMARY_THUMB_TOUCH + 1
def RS_TOUCH : Int := RIGHT_SECONDARY_THUMB_TOUCH + 1
def RIGHT_THUMB_UP : Int := RS_TOUCH + 1
def LEFT_PRIMARY_INDEX : Int := RIGHT_THUMB_UP + 1
def LEFT_SECONDARY_INDEX : Int := LEFT_PRIMARY_INDEX + 1
def LEFT_PRIMARY_INDEX_TOUCH : Int := LEFT_SECONDARY_INDEX + 1
def LEFT_SECONDARY_INDEX_TOUCH : Int := LEFT_PRIMARY_INDEX_TOUCH + 1
def LEFT_INDEX_POINT : Int := LEFT_SECONDARY_INDEX_TOUCH + 1
def RIGHT_PRIMARY_INDEX : Int := LEFT_INDEX_POINT + 1
def RIGHT_SECONDARY_INDEX : Int := RIGHT_PRIMARY_INDEX + 1
def RIGHT_PRIMARY_INDEX_TOUCH : Int := RIGHT_SECONDARY_INDEX + 1
def RIGHT_SECONDARY_INDEX_TOUCH : Int := RIGHT_PRIMARY_INDEX_TOUCH + 1
def RIGHT_INDEX_POINT : Int := RIGHT_SECONDARY_INDEX_TOUCH + 1
def LEFT_GRIP : Int := RIGHT_INDEX_POINT + 1
def LEFT_GRIP_TOUCH : Int := LEFT_GRIP + 1
def RIGHT_GRIP : Int := LEFT_GRIP_TOUCH + 1
def RIGHT_GRIP_TOUCH : Int := RIGHT_GRIP + 1
def NUM_STANDARD_BUTTONS : Int := RIGHT_GRIP_TOUCH + 1

/-- The button channels, every enumerator before `NUM_STANDARD_BUTTONS`, in
    declaration order. -/
def channels : List Int :=
  [A, B, X, Y, BACK, GUIDE, START, LS, RS, LB, RB, DU, DD, DL, DR, LEFT_PRIMARY_THUMB,
   LEFT_SECONDARY_THUMB, LEFT_PRIMARY_THUMB_TOUCH, LEFT_SECONDARY_THUMB_TOUCH, LS_TOUCH,
   LEFT_THUMB_UP, RIGHT_PRIMARY_THUMB, RIGHT_SECONDARY_THUMB, RIGHT_PRIMARY_THUMB_TOUCH,
   RIGHT_SECONDARY_THUMB_TOUCH, RS_TOUCH, RIGHT_THUMB_UP, LEFT_PRIMARY_INDEX,
   LEFT_SECONDARY_INDEX, LEFT_PRIMARY_INDEX_TOUCH, LEFT_SECONDARY_INDEX_TOUCH,
   LEFT_INDEX_POINT, RIGHT_PRIMARY_INDEX, RIGHT_SECONDARY_INDEX, RIGHT_PRIMARY_INDEX_TOUCH,
   RIGHT_SECONDARY_INDEX_TOUCH, RIGHT_INDEX_POINT, LEFT_GRIP, LEFT_GRIP_TOUCH, RIGHT_GRIP,
   RIGHT_GRIP_TOUCH]

end StandardButtonChannel

namespace StandardAxisChannel

def LX : Int := 0
def LY : Int := LX + 1
def RX : Int := LY + 1
def RY : Int := RX + 1
def LT : Int := RY + 1
def RT : Int := LT + 1
def NUM_STANDARD_AXES : Int := RT + 1
def LZ : Int := LT
def RZ : Int := RT

end StandardAxisChannel

end controller

namespace EntityTreeRenderer

/-! ## Sample inputs -/

/-- A context with `TREE_SCALE = 16384`, voxel size scale `16384 * 400`, no boundary
    level adjustment, and `boundaryDistanceForRenderLevel (level, scale) = scale / 2^level`;
    its base threshold is `1638400`. -/
def sampleContext : Context :=
  { TREE_SCALE := F32.ofInt 16384
    boundaryDistanceForRenderLevel := fun level voxelSizeScale =>
      { units := F32.roundHalfEven voxelSizeScale.units (2 ^ level.toNat) }
    menu := { voxelSizeScale := F32.ofInt 6553600, boundaryLevelAdjust := 0,
              displayModelElementProxy := false } }

/-- The sample context with another voxel size scale, so that the base threshold is
    a quarter of the scale given. -/
def contextWithSizeScale (voxelSizeScale : Int) : Context :=
  { sampleContext with
    menu := { sampleContext.menu with voxelSizeScale := F32.ofInt voxelSizeScale } }

/-- The sample context with tree scale `5`. -/
def contextWithTreeScaleFive : Context :=
  { sampleContext with TREE_SCALE := F32.ofInt 5 }

/-- A visible entity as large as the tree, at the camera, inside the frustum. -/
def nearEntity : EntityItem :=
  { isVisible := true, largestDimension := F32.ofInt 16384, distance := F32.zero,
    cubeInFrustum := ViewFrustum.location.INSIDE, glowLevel := F32.zero }

/-- An entity that is not visible and lies beyond the visible distance for its size. -/
def hiddenFarEntity : EntityItem :=
  { isVisible := false, largestDimension := F32.ofInt 16384, distance := F32.ofInt 2000000,
    cubeInFrustum := ViewFrustum.location.INSIDE, glowLevel := F32.zero }

/-- A visible entity beyond the visible distance for its size. -/
def farEntity : EntityItem :=
  { isVisible := true, largestDimension := F32.ofInt 16384, distance := F32.ofInt 2000000,
    cubeInFrustum := ViewFrustum.location.INSIDE, glowLevel := F32.zero }

/-- A visible entity of size zero, at the camera, inside the frustum. -/
def zeroSizeEntity : EntityItem :=
  { isVisible := true, largestDimension := F32.zero, distance := F32.zero,
    cubeInFrustum := ViewFrustum.location.INSIDE, glowLevel := F32.zero }

/-- Render arguments at the start of a frame, in a mode other than the shadow mode. -/
def freshArgs : RenderArgs :=
  { _renderMode := RenderMode.otherMode 0, _elementsTouched := 0, _itemsOutOfView := 0 }

/-- A renderer owned by thread `1` with one model (`7`) already waiting for deletion. -/
def sampleStore : ModelStore :=
  { thread := 1, _releasedModels := [7], deleted := [] }

/-! ## Rounding to the nearest unit -/

theorem half_units (x : F32) : x.half.units = F32.roundHalfEven x.units 2 := rfl

/-- Halving an even number of units is exact. -/
theorem roundHalfEven_two_mul (c : Int) : F32.roundHalfEven (2 * c) 2 = c := by
  unfold F32.roundHalfEven
  split_ifs <;> omega

/-- Halving a positive number of units gives a smaller, non-negative number. -/
theorem roundHalfEven_two_of_pos (m : Int) (h : 1 ≤ m) :
    F32.roundHalfEven m 2 < m ∧ 0 ≤ F32.roundHalfEven m 2 := by
  unfold F32.roundHalfEven
  split_ifs <;> omega

/-- Halving a non-positive number of units gives a number between it and zero. -/
theorem roundHalfEven_two_of_nonpos (m : Int) (h : m ≤ 0) :
    m ≤ F32.roundHalfEven m 2 ∧ F32.roundHalfEven m 2 ≤ 0 := by
  unfold F32.roundHalfEven
  split_ifs <;> omega

/-- Dividing a multiple of four units by four is exact. -/
theorem roundHalfEven_four_mul (c : Int) : F32.roundHalfEven (4 * c) 4 = c := by
  unfold F32.roundHalfEven
  split_ifs <;> omega

/-- A number of units divisible by `2^k` is halved `k` times without rounding. -/
theorem half_iterate_exact (k : Nat) :
    ∀ (x : F32) (c : Int), x.units = 2 ^ k * c → (F32.half^[k] x).units = c := by
  induction k with
  | zero => intro x c h; simpa using h
  | succ k ih =>
    intro x c h
    rw [Function.iterate_succ_apply]
    apply ih
    rw [half_units, h, pow_succ, mul_assoc, mul_comm ((2 : Int) ^ k) (2 * c), mul_assoc,
      roundHalfEven_two_mul, mul_comm]

/-- The first `j ≤ n` halvings of `2^n * c` units are exact. -/
theorem half_iterate_exact_le (n j : Nat) (hj : j ≤ n) (x : F32) (c : Int)
    (h : x.units = 2 ^ n * c) : (F32.half^[j] x).units = 2 ^ (n - j) * c := by
  apply half_iterate_exact
  rw [h, ← mul_assoc, ← pow_add]
  congr 2
  omega

theorem halve_iterate (k : Nat) (s : LodState) :
    halve^[k] s =
      { scale := F32.half^[k] s.scale,
        visibleDistanceAtScale := F32.half^[k] s.visibleDistanceAtScale } := by
  induction k generalizing s with
  | zero => rfl
  | succ k ih => rw [Function.iterate_succ_apply, ih]; rfl

theorem halve_iterate_scale (k : Nat) (s : LodState) :
    (halve^[k] s).scale = F32.half^[k] s.scale := by
  rw [halve_iterate]

theorem halve_iterate_visible (k : Nat) (s : LodState) :
    (halve^[k] s).visibleDistanceAtScale = F32.half^[k] s.visibleDistanceAtScale := by
  rw [halve_iterate]

/-! ## Units and rational values -/

theorem toRat_lt_iff (a b : F32) : a.toRat < b.toRat ↔ a.units < b.units := by
  unfold F32.toRat
  rw [div_lt_div_iff_of_pos_right (by positivity)]
  exact Int.cast_lt

theorem toRat_le_iff (a b : F32) : a.toRat ≤ b.toRat ↔ a.units ≤ b.units := by
  unfold F32.toRat
  rw [div_le_div_iff_of_pos_right (by positivity)]
  exact Int.cast_le

theorem toRat_pos_iff (a : F32) : 0 < a.toRat ↔ 0 < a.units := by
  unfold F32.toRat
  rw [div_pos_iff_of_pos_right (by positivity)]
  exact Int.cast_pos

theorem toRat_nonneg_iff (a : F32) : 0 ≤ a.toRat ↔ 0 ≤ a.units := by
  unfold F32.toRat
  rw [div_nonneg_iff]
  constructor
  · rintro (⟨h, _⟩ | ⟨_, h⟩)
    · exact Int.cast_nonneg.mp h
    · exact absurd h (not_le.mpr (by positivity))
  · intro h
    exact Or.inl ⟨Int.cast_nonneg.mpr h, by positivity⟩

theorem toRat_neg_iff (a : F32) : a.toRat < 0 ↔ a.units < 0 := by
  rw [← not_le, toRat_nonneg_iff, not_le]

/-- The value of `d` is that of `x` divided by `2^k` exactly when `x` holds `2^k` times
    the units of `d`. -/
theorem toRat_eq_div_pow_iff (d x : F32) (k : Nat) :
    d.toRat = x.toRat / 2 ^ k ↔ x.units = 2 ^ k * d.units := by
  unfold F32.toRat
  have h149 : (0 : ℚ) < 2 ^ 149 := by positivity
  have hk : (0 : ℚ) < 2 ^ k := by positivity
  rw [div_div, div_eq_div_iff h149.ne' (mul_pos h149 hk).ne']
  constructor
  · intro h
    have h2 : (x.units : ℚ) = 2 ^ k * d.units := by
      have h3 : (d.units : ℚ) * 2 ^ k * 2 ^ 149 = x.units * 2 ^ 149 := by linarith
      have h4 := mul_right_cancel₀ h149.ne' h3
      linarith
    exact_mod_cast h2
  · intro h
    have h2 : (x.units : ℚ) = 2 ^ k * d.units := by exact_mod_cast h
    rw [h2]; ring

theorem toRat_lt_div_pow_iff (d x : F32) (k : Nat) :
    d.toRat < x.toRat / 2 ^ k ↔ 2 ^ k * d.units < x.units := by
  unfold F32.toRat
  have h149 : (0 : ℚ) < 2 ^ 149 := by positivity
  have hk : (0 : ℚ) < 2 ^ k := by positivity
  rw [div_div, div_lt_div_iff₀ h149 (mul_pos h149 hk)]
  constructor
  · intro h
    have h2 : (2 : ℚ) ^ k * d.units < x.units := by
      have h3 : ((2 : ℚ) ^ k * d.units) * 2 ^ 149 < x.units * 2 ^ 149 := by linarith
      exact lt_of_mul_lt_mul_right h3 h149.le
    exact_mod_cast h2
  · intro h
    have h2 : (2 : ℚ) ^ k * d.units < x.units := by exact_mod_cast h
    have h3 := mul_lt_mul_of_pos_right h2 h149
    linarith

theorem toRat_div_pow_lt_iff (d x : F32) (k : Nat) :
    x.toRat / 2 ^ k < d.toRat ↔ x.units < 2 ^ k * d.units := by
  unfold F32.toRat
  have h149 : (0 : ℚ) < 2 ^ 149 := by positivity
  have hk : (0 : ℚ) < 2 ^ k := by positivity
  rw [div_div, div_lt_div_iff₀ (mul_pos h149 hk) h149]
  constructor
  · intro h
    have h2 : (x.units : ℚ) < 2 ^ k * d.units := by
      have h3 : (x.units : ℚ) * 2 ^ 149 < ((2 : ℚ) ^ k * d.units) * 2 ^ 149 := by linarith
      exact lt_of_mul_lt_mul_right h3 h149.le
    exact_mod_cast h2
  · intro h
    have h2 : (x.units : ℚ) < 2 ^ k * d.units := by exact_mod_cast h
    have h3 := mul_lt_mul_of_pos_right h2 h149
    linarith

theorem toRat_le_div_pow_iff (d x : F32) (k : Nat) :
    d.toRat ≤ x.toRat / 2 ^ k ↔ 2 ^ k * d.units ≤ x.units := by
  rw [← not_lt, toRat_div_pow_lt_iff, not_lt]

theorem toRat_div_pow_le_iff (d x : F32) (k : Nat) :
    x.toRat / 2 ^ k ≤ d.toRat ↔ x.units ≤ 2 ^ k * d.units := by
  rw [← not_lt, toRat_lt_div_pow_iff, not_lt]

theorem toRat_double (x : F32) : x.double.toRat = 2 * x.toRat := by
  unfold F32.toRat F32.double
  push_cast
  ring

theorem gt_iff (a b : F32) : F32.gt a b = true ↔ b.units < a.units := by
  simp [F32.gt]

theorem lt_iff (a b : F32) : F32.lt a b = true ↔ a.units < b.units := by
  simp [F32.lt]

theorem le_iff (a b : F32) : F32.le a b = true ↔ a.units ≤ b.units := by
  simp [F32.le]

/-! ## Facts about the halving loop -/

/-- If the loop condition holds before each of the first `k` halvings and fails after
    the `k`-th, the loop leaves with the state after exactly `k` halvings, whatever
    fuel above `k` it is given. -/
theorem halvingLoop_eq_iterate (d : F32) (k : Nat) :
    ∀ (s : LodState), (∀ j, j < k → F32.gt (halve^[j] s).scale d = true) →
      F32.gt (halve^[k] s).scale d = false →
      ∀ fuel, k < fuel → halvingLoop d fuel s = some (halve^[k] s) := by
  induction k with
  | zero =>
    intro s _ hk fuel hf
    obtain ⟨f, rfl⟩ : ∃ f, fuel = f + 1 := ⟨fuel - 1, by omega⟩
    simp only [Function.iterate_zero, id_eq] at hk
    simp [halvingLoop, hk]
  | succ k ih =>
    intro s hlt hk fuel hf
    obtain ⟨f, rfl⟩ : ∃ f, fuel = f + 1 := ⟨fuel - 1, by omega⟩
    have h0 : F32.gt s.scale d = true := by simpa using hlt 0 (Nat.succ_pos k)
    rw [halvingLoop, if_pos h0, Function.iterate_succ_apply]
    apply ih (halve s)
    · intro j hj
      have := hlt (j + 1) (by omega)
      rwa [Function.iterate_succ_apply] at this
    · rwa [Function.iterate_succ_apply] at hk
    · omega

/-- While the loop condition keeps holding the loop does not leave. -/
theorem halvingLoop_eq_none (d : F32) :
    ∀ (fuel : Nat) (s : LodState), (∀ j, j < fuel → F32.gt (halve^[j] s).scale d = true) →
      halvingLoop d fuel s = none := by
  intro fuel
  induction fuel with
  | zero => intro s _; rfl
  | succ f ih =>
    intro s h
    have h0 : F32.gt s.scale d = true := by simpa using h 0 (Nat.succ_pos f)
    rw [halvingLoop, if_pos h0]
    apply ih
    intro j hj
    have := h (j + 1) (by omega)
    rwa [Function.iterate_succ_apply] at this

/-- Whenever the loop leaves, it has made some number `k` of halvings, below the fuel,
    with the condition true before each and false after the last. -/
theorem halvingLoop_eq_some (d : F32) :
    ∀ (fuel : Nat) (s r : LodState), halvingLoop d fuel s = some r →
      ∃ k, k < fuel ∧ r = halve^[k] s ∧ (∀ j, j < k → F32.gt (halve^[j] s).scale d = true) ∧
        F32.gt (halve^[k] s).scale d = false := by
  intro fuel
  induction fuel with
  | zero => intro s r h; simp [halvingLoop] at h
  | succ f ih =>
    intro s r h
    rw [halvingLoop] at h
    by_cases h0 : F32.gt s.scale d = true
    · rw [if_pos h0] at h
      obtain ⟨k, hk, hr, hlt, hge⟩ := ih (halve s) r h
      refine ⟨k + 1, by omega, ?_, ?_, ?_⟩
      · rw [Function.iterate_succ_apply]; exact hr
      · intro j hj
        cases j with
        | zero => simpa using h0
        | succ j =>
          rw [Function.iterate_succ_apply]
          exact hlt j (by omega)
      · rw [Function.iterate_succ_apply]; exact hge
    · rw [if_neg h0] at h
      refine ⟨0, Nat.succ_pos f, ?_, ?_, ?_⟩
      · simpa using (Option.some.inj h).symm
      · intro j hj; omega
      · simpa using h0

/-- Two runs of the loop that both leave, leave with the same state. -/
theorem halvingLoop_deterministic (d : F32) (f f' : Nat) (s r r' : LodState)
    (h : halvingLoop d f s = some r) (h' : halvingLoop d f' s = some r') : r = r' := by
  obtain ⟨k, _, hr, hlt, hge⟩ := halvingLoop_eq_some d f s r h
  obtain ⟨k', _, hr', hlt', hge'⟩ := halvingLoop_eq_some d f' s r' h'
  have hkk : k = k' := by
    rcases lt_trichotomy k k' with hlt1 | heq | hgt1
    · have := hlt' k hlt1; rw [hge] at this; exact absurd this (by simp)
    · exact heq
    · have := hlt k' hgt1; rw [hge'] at this; exact absurd this (by simp)
  rw [hr, hr', hkk]

/-- For a size that is not negative the loop condition fails after at most as many
    halvings as the scale has units: the scale shrinks with every halving and ends at
    zero. -/
theorem exists_exit_of_nonneg (d : F32) (hd : 0 ≤ d.units) :
    ∀ (n : Nat) (s : LodState), s.scale.units ≤ n →
      ∃ k, k ≤ n ∧ (∀ j, j < k → F32.gt (halve^[j] s).scale d = true) ∧
        F32.gt (halve^[k] s).scale d = false := by
  intro n
  induction n with
  | zero =>
    intro s hs
    refine ⟨0, le_refl 0, fun j hj => absurd hj (Nat.not_lt_zero j), ?_⟩
    have : ¬ (d.units < s.scale.units) := by
      have h0 : s.scale.units ≤ 0 := by simpa using hs
      omega
    simpa [F32.gt] using this
  | succ n ih =>
    intro s hs
    by_cases h0 : F32.gt s.scale d = true
    · have hpos : 1 ≤ s.scale.units := by
        have := (gt_iff _ _).mp h0
        omega
      have hsmall : (halve s).scale.units ≤ n := by
        have h1 := (roundHalfEven_two_of_pos s.scale.units hpos).1
        have h2 : (halve s).scale.units = F32.roundHalfEven s.scale.units 2 := rfl
        have h3 : s.scale.units ≤ (n : Int) + 1 := by exact_mod_cast hs
        rw [h2]
        omega
      obtain ⟨k, hk, hlt, hge⟩ := ih (halve s) hsmall
      refine ⟨k + 1, by omega, ?_, ?_⟩
      · intro j hj
        cases j with
        | zero => simpa using h0
        | succ j =>
          rw [Function.iterate_succ_apply]
          exact hlt j (by omega)
      · rw [Function.iterate_succ_apply]; exact hge
    · refine ⟨0, Nat.zero_le _, fun j hj => absurd hj (Nat.not_lt_zero j), ?_⟩
      simpa using h0

/-- For a size that is not negative the loop leaves, with the same state for every fuel
    above the number of units of the tree scale. -/
theorem halvingLoop_of_nonneg (ctx : Context) (d : F32) (hd : 0 ≤ d.units) :
    ∃ k : Nat, k ≤ ctx.TREE_SCALE.units.toNat ∧
      (∀ j, j < k → F32.gt (halve^[j] (initialLod ctx)).scale d = true) ∧
      F32.gt (halve^[k] (initialLod ctx)).scale d = false ∧
      ∀ fuel, k < fuel → halvingLoop d fuel (initialLod ctx) = some (halve^[k] (initialLod ctx)) := by
  obtain ⟨k, hk, hlt, hge⟩ := exists_exit_of_nonneg d hd ctx.TREE_SCALE.units.toNat
    (initialLod ctx) (Int.self_le_toNat _)
  exact ⟨k, hk, hlt, hge, halvingLoop_eq_iterate d k _ hlt hge⟩

/-- For a negative size below the scale the loop condition holds after any number of
    halvings: the scale never goes below the smaller of itself and zero. -/
theorem gt_iterate_of_neg (d : F32) (hd : d.units < 0) :
    ∀ (n : Nat) (s : LodState), d.units < s.scale.units →
      F32.gt (halve^[n] s).scale d = true := by
  intro n
  induction n with
  | zero => intro s hs; simpa [F32.gt] using hs
  | succ n ih =>
    intro s hs
    rw [Function.iterate_succ_apply]
    apply ih
    have h2 : (halve s).scale.units = F32.roundHalfEven s.scale.units 2 := rfl
    rw [h2]
    by_cases hpos : 1 ≤ s.scale.units
    · have := (roundHalfEven_two_of_pos s.scale.units hpos).2
      omega
    · have := (roundHalfEven_two_of_nonpos s.scale.units (by omega)).1
      omega

/-- On a size that hangs the loop leaves for no fuel. -/
theorem halvingLoop_of_hangs (ctx : Context) (d : F32) (h : hangs ctx d) (fuel : Nat) :
    halvingLoop d fuel (initialLod ctx) = none :=
  halvingLoop_eq_none d fuel _ (fun j _ => gt_iterate_of_neg d h.1 j _ h.2)

/-- The function returns once the fuel is above the units of the tree scale, unless
    the size hangs. -/
theorem visibleDistance_of_not_hangs (ctx : Context) (d : F32) (h : ¬ hangs ctx d) :
    ∃ (k : Nat) (T : F32), k ≤ ctx.TREE_SCALE.units.toNat ∧
      ∀ fuel, k < fuel → visibleDistance ctx fuel d = some T := by
  by_cases hd : 0 ≤ d.units
  · obtain ⟨k, hk, _, _, hrun⟩ := halvingLoop_of_nonneg ctx d hd
    refine ⟨k, correction d (halve^[k] (initialLod ctx)), hk, ?_⟩
    intro fuel hf
    simp [visibleDistance, hrun fuel hf]
  · have hle : ctx.TREE_SCALE.units ≤ d.units := by
      unfold hangs at h
      omega
    refine ⟨0, correction d (initialLod ctx), Nat.zero_le _, ?_⟩
    intro fuel hf
    have hge : F32.gt (halve^[0] (initialLod ctx)).scale d = false := by
      have : ¬ (d.units < (initialLod ctx).scale.units) := by
        show ¬ (d.units < ctx.TREE_SCALE.units)
        omega
      simpa [F32.gt] using this
    have hrun := halvingLoop_eq_iterate d 0 (initialLod ctx)
      (fun j hj => absurd hj (Nat.not_lt_zero j)) hge fuel hf
    simp only [Function.iterate_zero, id_eq] at hrun
    simp [visibleDistance, hrun]

/-- The value computed does not depend on the fuel. -/
theorem visibleDistance_deterministic (ctx : Context) (d : F32) (f f' : Nat) (t t' : F32)
    (h : visibleDistance ctx f d = some t) (h' : visibleDistance ctx f' d = some t') : t = t' := by
  simp only [visibleDistance, Option.map_eq_some'] at h h'
  obtain ⟨r, hr, rfl⟩ := h
  obtain ⟨r', hr', rfl⟩ := h'
  rw [halvingLoop_deterministic d f f' _ r r' hr hr']

/-- A run in which no halving of the scale rounds: the scale holds `2^n * c` units, the
    size is below `2^(n-j) * c` units for `j < n` and not below `c` units. The loop
    then leaves after exactly `n` halvings with `c` units of scale. -/
theorem halvingLoop_exact_run (ctx : Context) (d : F32) (n : Nat) (c : Int)
    (hs : ctx.TREE_SCALE.units = 2 ^ n * c)
    (hcond : ∀ j, j < n → d.units < 2 ^ (n - j) * c) (hexit : c ≤ d.units) :
    (∀ j, j < n → F32.gt (halve^[j] (initialLod ctx)).scale d = true) ∧
    F32.gt (halve^[n] (initialLod ctx)).scale d = false ∧
    (halve^[n] (initialLod ctx)).scale.units = c ∧
    (∀ fuel, fuel ≤ n → halvingLoop d fuel (initialLod ctx) = none) ∧
    (∀ fuel, n < fuel →
      halvingLoop d fuel (initialLod ctx) = some (halve^[n] (initialLod ctx))) := by
  have hscale : ∀ j, j ≤ n → (halve^[j] (initialLod ctx)).scale.units = 2 ^ (n - j) * c := by
    intro j hj
    rw [halve_iterate_scale]
    exact half_iterate_exact_le n j hj _ c hs
  have h1 : ∀ j, j < n → F32.gt (halve^[j] (initialLod ctx)).scale d = true := by
    intro j hj
    rw [gt_iff, hscale j hj.le]
    exact hcond j hj
  have hn : (halve^[n] (initialLod ctx)).scale.units = c := by
    rw [hscale n (le_refl n)]; simp
  have h2 : F32.gt (halve^[n] (initialLod ctx)).scale d = false := by
    have : ¬ (d.units < (halve^[n] (initialLod ctx)).scale.units) := by rw [hn]; omega
    simpa [F32.gt] using this
  refine ⟨h1, h2, hn, ?_, halvingLoop_eq_iterate d n _ h1 h2⟩
  intro fuel hf
  exact halvingLoop_eq_none d fuel _ (fun j hj => h1 j (by omega))

/-- Helper: a positive number of units is below any proper power-of-two multiple of
    something at least half of it. -/
theorem lt_pow_mul (x c : Int) (m : Nat) (hm : 1 ≤ m) (hc : 0 < c) (hx : x < 2 * c) :
    x < 2 ^ m * c := by
  have h2 : (2 : Int) ^ 1 ≤ 2 ^ m := pow_le_pow_right₀ (by norm_num) hm
  have h3 : 2 * c ≤ 2 ^ m * c := by
    have := mul_le_mul_of_nonneg_right h2 hc.le
    simpa using this
  omega

/-- The run for a size that is exactly the tree scale divided by `2^k`. -/
theorem halved_scale_run (ctx : Context) (hS : 0 < ctx.TREE_SCALE.units) (k : Nat) (d : F32)
    (hd : ctx.TREE_SCALE.units = 2 ^ k * d.units) :
    (∀ j, j < k → F32.gt (halve^[j] (initialLod ctx)).scale d = true) ∧
    F32.gt (halve^[k] (initialLod ctx)).scale d = false ∧
    F32.lt (halve^[k] (initialLod ctx)).scale d = false ∧
    (∀ fuel, fuel ≤ k → halvingLoop d fuel (initialLod ctx) = none) ∧
    (∀ fuel, k < fuel →
      halvingLoop d fuel (initialLod ctx) = some (halve^[k] (initialLod ctx)) ∧
      visibleDistance ctx fuel d = some (F32.half^[k] (baseThreshold ctx))) := by
  have hdpos : 0 < d.units := by
    have h2 : (0 : Int) < 2 ^ k := by positivity
    rw [hd] at hS
    by_contra hneg
    have h3 : 2 ^ k * d.units ≤ 0 := mul_nonpos_of_nonneg_of_nonpos h2.le (by omega)
    omega
  obtain ⟨h1, h2, hn, h4, h5⟩ := halvingLoop_exact_run ctx d k d.units hd
    (fun j hj => lt_pow_mul d.units d.units (k - j) (by omega) hdpos (by omega)) (le_refl _)
  have h3 : F32.lt (halve^[k] (initialLod ctx)).scale d = false := by
    have : ¬ ((halve^[k] (initialLod ctx)).scale.units < d.units) := by rw [hn]; omega
    simpa [F32.lt] using this
  refine ⟨h1, h2, h3, h4, fun fuel hf => ⟨h5 fuel hf, ?_⟩⟩
  simp [visibleDistance, h5 fuel hf, correction, h3, halve_iterate_visible, baseThreshold]

/-- When `x / 2^k` is the value of some `T`, halving `x` `k` times gives `T`. -/
theorem half_iterate_of_toRat (x T : F32) (k : Nat) (h : T.toRat = x.toRat / 2 ^ k) :
    F32.half^[k] x = T := by
  have hu := (toRat_eq_div_pow_iff T x k).mp h
  have := half_iterate_exact k x T.units hu
  cases T
  cases hx : F32.half^[k] x
  rw [hx] at this
  simp_all

/-- The base threshold is `boundaryDistanceForRenderLevel(boundaryLevelAdjust,
    voxelSizeScale) / 4.0f`. -/
theorem baseThreshold_eq (ctx : Context) :
    baseThreshold ctx =
      (ctx.boundaryDistanceForRenderLevel ctx.menu.boundaryLevelAdjust
        ctx.menu.voxelSizeScale).quarter := rfl

/-! ## Values of the sample inputs -/

theorem roundHalfEven_one (m : Int) : F32.roundHalfEven m 1 = m := by
  unfold F32.roundHalfEven
  split_ifs <;> omega

/-- The base threshold of the sample context with voxel size scale `4 * b` is `b`. -/
theorem baseThreshold_contextWithSizeScale (b : Int) :
    baseThreshold (contextWithSizeScale (4 * b)) = F32.ofInt b := by
  simp only [baseThreshold, initialLod, contextWithSizeScale, sampleContext, F32.quarter,
    F32.ofInt, Int.toNat_zero, pow_zero, roundHalfEven_one]
  rw [mul_assoc, roundHalfEven_four_mul]

theorem sampleContext_eq : sampleContext = contextWithSizeScale (4 * 1638400) := rfl

theorem baseThreshold_sampleContext : baseThreshold sampleContext = F32.ofInt 1638400 := by
  rw [sampleContext_eq, baseThreshold_contextWithSizeScale]

theorem treeScale_contextWithSizeScale (v : Int) :
    (contextWithSizeScale v).TREE_SCALE = F32.ofInt 16384 := rfl

theorem ofInt_16384_units : (F32.ofInt 16384).units = 2 ^ 163 := by
  norm_num [F32.ofInt]

/-- Whole numbers below `2^24` in magnitude are binary32 numbers. -/
theorem isBinary32_ofInt (n : Int) (h : n.natAbs < 2 ^ 24) : (F32.ofInt n).isBinary32 = true := by
  unfold F32.isBinary32
  rw [List.any_eq_true]
  refine ⟨149, by simp, ?_⟩
  simp only [F32.ofInt, Int.natAbs_mul, Int.natAbs_pow, Bool.and_eq_true, decide_eq_true_eq]
  have h2 : Int.natAbs 2 = 2 := rfl
  rw [h2]
  exact ⟨Nat.mul_mod_left _ _, by rw [Nat.mul_div_cancel _ (by positivity)]; exact h⟩

/-- Fewer than `2^24` units are a (subnormal or small normal) binary32 number. -/
theorem isBinary32_small (m : Int) (h : m.natAbs < 2 ^ 24) :
    F32.isBinary32 { units := m } = true := by
  unfold F32.isBinary32
  rw [List.any_eq_true]
  refine ⟨0, by simp, ?_⟩
  simp only [pow_zero, Nat.mod_one, Nat.div_one, decide_True, Bool.true_and,
    decide_eq_true_eq]
  exact h

theorem sampleContext_treeScale_pos : 0 < sampleContext.TREE_SCALE.toRat := by
  rw [toRat_pos_iff]
  norm_num [sampleContext, F32.ofInt]

/-- Halving `1662500` (as a binary32 number) `163` times: exact down to `415625` units,
    then twelve roundings, ending at `102` units. -/
theorem half_iterate_1662500 : F32.half^[163] (F32.ofInt 1662500) = { units := 102 } := by
  have h151 : F32.half^[151] (F32.ofInt 1662500) = { units := 415625 } := by
    have h := half_iterate_exact 151 (F32.ofInt 1662500) 415625 (by norm_num [F32.ofInt])
    cases hx : F32.half^[151] (F32.ofInt 1662500)
    rw [hx] at h
    simp_all
  have hsplit : F32.half^[163] (F32.ofInt 1662500)
      = F32.half^[12] (F32.half^[151] (F32.ofInt 1662500)) :=
    Function.iterate_add_apply F32.half 12 151 _
  rw [hsplit, h151]
  simp [Function.iterate_succ_apply, F32.half, F32.roundHalfEven]

/-! ## The threshold computed by `shouldRenderEntity` -/

/-- Counterexample to C1 as stated: with `TREE_SCALE = 16384` and base threshold
    `B = 1662500`, the size `2^-149 = S / 2^163` (one unit) gets the visible distance
    `102 * 2^-149`, which is not `B / 2^163` (about `101.47 * 2^-149`): the last twelve
    halvings of the threshold round. All the inputs are binary32 numbers. -/
theorem visibleDistance_rounds_below_normal_range :
    (contextWithSizeScale 6650000).TREE_SCALE.isBinary32 = true ∧
    (contextWithSizeScale 6650000).menu.voxelSizeScale.isBinary32 = true ∧
    F32.isBinary32 { units := 1 } = true ∧
    baseThreshold (contextWithSizeScale 6650000) = F32.ofInt 1662500 ∧
    F32.toRat { units := 1 } = (contextWithSizeScale 6650000).TREE_SCALE.toRat / 2 ^ 163 ∧
    visibleDistance (contextWithSizeScale 6650000) 164 { units := 1 }
      = some { units := 102 } ∧
    F32.toRat { units := 102 }
      ≠ (baseThreshold (contextWithSizeScale 6650000)).toRat / 2 ^ 163 := by
  have hB : baseThreshold (contextWithSizeScale 6650000) = F32.ofInt 1662500 :=
    baseThreshold_contextWithSizeScale 1662500
  have hSu : (contextWithSizeScale 6650000).TREE_SCALE.units = 2 ^ 163 * 1 := by
    rw [treeScale_contextWithSizeScale, ofInt_16384_units]; norm_num
  have hrun := halved_scale_run (contextWithSizeScale 6650000)
    (by rw [hSu]; positivity) 163 { units := 1 } hSu
  refine ⟨isBinary32_ofInt 16384 (by decide), isBinary32_ofInt 6650000 (by decide),
    isBinary32_small 1 (by decide), hB, ?_, ?_, ?_⟩
  · rw [toRat_eq_div_pow_iff]; exact hSu
  · rw [(hrun.2.2.2.2 164 (by decide)).2, hB, half_iterate_1662500]
  · rw [hB, Ne, toRat_eq_div_pow_iff]
    norm_num [F32.ofInt]

/-- C1, amended: in binary32, with tree scale `S > 0` and base threshold `B`, for every
    `k` for which `S / 2^k` is a binary32 number `d`, an object of largest dimension `d`
    makes the loop halve exactly `k` times (the condition holds before each of the first
    `k` halvings and fails after the `k`-th; the loop needs more than `k` tests), the
    correction does not fire, and the visible distance is `B` halved `k` times in
    binary32; that is exactly `B / 2^k` whenever `B / 2^k` is a binary32 number. Size
    `S` gives `B`, and size `S / 2` gives `B / 2` when that is a binary32 number. -/
theorem visibleDistance_at_halved_scale (ctx : Context) (hS : 0 < ctx.TREE_SCALE.toRat)
    (k : Nat) (d : F32) (hd : d.toRat = ctx.TREE_SCALE.toRat / 2 ^ k) :
    (∀ j, j < k → F32.gt (halve^[j] (initialLod ctx)).scale d = true) ∧
    F32.gt (halve^[k] (initialLod ctx)).scale d = false ∧
    F32.lt (halve^[k] (initialLod ctx)).scale d = false ∧
    (∀ fuel, fuel ≤ k → halvingLoop d fuel (initialLod ctx) = none) ∧
    (∀ fuel, k < fuel →
      halvingLoop d fuel (initialLod ctx) = some (halve^[k] (initialLod ctx)) ∧
      visibleDistance ctx fuel d = some (F32.half^[k] (baseThreshold ctx))) ∧
    (∀ T : F32, T.toRat = (baseThreshold ctx).toRat / 2 ^ k →
      ∀ fuel, k < fuel → visibleDistance ctx fuel d = some T) ∧
    (∀ fuel, 0 < fuel → visibleDistance ctx fuel ctx.TREE_SCALE = some (baseThreshold ctx)) ∧
    (∀ dHalf THalf : F32, dHalf.toRat = ctx.TREE_SCALE.toRat / 2 →
      THalf.toRat = (baseThreshold ctx).toRat / 2 →
      ∀ fuel, 1 < fuel → visibleDistance ctx fuel dHalf = some THalf) := by
  have hSu : 0 < ctx.TREE_SCALE.units := (toRat_pos_iff _).mp hS
  have hdu := (toRat_eq_div_pow_iff d ctx.TREE_SCALE k).mp hd
  obtain ⟨h1, h2, h3, h4, h5⟩ := halved_scale_run ctx hSu k d hdu
  refine ⟨h1, h2, h3, h4, h5, ?_, ?_, ?_⟩
  · intro T hT fuel hf
    rw [(h5 fuel hf).2, half_iterate_of_toRat _ T k hT]
  · intro fuel hf
    have h := (halved_scale_run ctx hSu 0 ctx.TREE_SCALE (by simp)).2.2.2.2 fuel hf
    simpa using h.2
  · intro dHalf THalf hdh hTh fuel hf
    have hdh' : ctx.TREE_SCALE.units = 2 ^ 1 * dHalf.units :=
      (toRat_eq_div_pow_iff dHalf ctx.TREE_SCALE 1).mp (by rw [pow_one]; exact hdh)
    have h := (halved_scale_run ctx hSu 1 dHalf hdh').2.2.2.2 fuel hf
    rw [h.2, half_iterate_of_toRat _ THalf 1 (by rw [pow_one]; exact hTh)]

/-- Witness for C1 on the sample context, `k = 3`: size `2048` gives `204800`. -/
theorem visibleDistance_at_halved_scale_witness :
    0 < sampleContext.TREE_SCALE.toRat ∧
    (F32.ofInt 2048).toRat = sampleContext.TREE_SCALE.toRat / 2 ^ 3 ∧
    (F32.ofInt 204800).toRat = (baseThreshold sampleContext).toRat / 2 ^ 3 ∧
    visibleDistance sampleContext 4 (F32.ofInt 2048) = some (F32.ofInt 204800) := by
  have hd : (F32.ofInt 2048).toRat = sampleContext.TREE_SCALE.toRat / 2 ^ 3 := by
    rw [toRat_eq_div_pow_iff]; norm_num [sampleContext, F32.ofInt]
  have hT : (F32.ofInt 204800).toRat = (baseThreshold sampleContext).toRat / 2 ^ 3 := by
    rw [toRat_eq_div_pow_iff, baseThreshold_sampleContext]; norm_num [F32.ofInt]
  exact ⟨sampleContext_treeScale_pos, hd, hT,
    (visibleDistance_at_halved_scale sampleContext sampleContext_treeScale_pos 3
      (F32.ofInt 2048) hd).2.2.2.2.2.1 (F32.ofInt 204800) hT 4 (by decide)⟩

/-- C2: for a largest dimension strictly greater than the tree scale the loop condition
    is false at once, so the loop halves zero times (it leaves with the initial state on
    its first test), the correction fires, and the visible distance is the base
    threshold doubled, `2 * B`. -/
theorem visibleDistance_above_tree_scale (ctx : Context) (d : F32)
    (hd : ctx.TREE_SCALE.toRat < d.toRat) :
    F32.gt (initialLod ctx).scale d = false ∧ F32.lt (initialLod ctx).scale d = true ∧
    (baseThreshold ctx).double.toRat = 2 * (baseThreshold ctx).toRat ∧
    ∀ fuel, 0 < fuel →
      halvingLoop d fuel (initialLod ctx) = some (initialLod ctx) ∧
      visibleDistance ctx fuel d = some (baseThreshold ctx).double := by
  have hu : ctx.TREE_SCALE.units < d.units := (toRat_lt_iff _ _).mp hd
  have h1 : F32.gt (initialLod ctx).scale d = false := by
    have : ¬ (d.units < (initialLod ctx).scale.units) := by
      show ¬ (d.units < ctx.TREE_SCALE.units)
      omega
    simpa [F32.gt] using this
  have h2 : F32.lt (initialLod ctx).scale d = true := (lt_iff _ _).mpr hu
  refine ⟨h1, h2, toRat_double _, ?_⟩
  intro fuel hf
  obtain ⟨f, rfl⟩ : ∃ f, fuel = f + 1 := ⟨fuel - 1, by omega⟩
  have hrun : halvingLoop d (f + 1) (initialLod ctx) = some (initialLod ctx) := by
    simp [halvingLoop, h1]
  refine ⟨hrun, ?_⟩
  simp [visibleDistance, hrun, correction, h2, baseThreshold]

/-- Witness for C2 on the sample context, size `20000 > 16384`. -/
theorem visibleDistance_above_tree_scale_witness :
    sampleContext.TREE_SCALE.toRat < (F32.ofInt 20000).toRat ∧
      visibleDistance sampleContext 1 (F32.ofInt 20000)
        = some (baseThreshold sampleContext).double :=
  have h : sampleContext.TREE_SCALE.toRat < (F32.ofInt 20000).toRat := by
    rw [toRat_lt_iff]; norm_num [sampleContext, F32.ofInt]
  ⟨h, ((visibleDistance_above_tree_scale sampleContext (F32.ofInt 20000) h).2.2.2
      1 (by decide)).2⟩

/-- C3: for a positive largest dimension `d` the function returns (for every fuel above
    some bound) with a threshold `T` that does not depend on the fuel, and its result
    for any distance is `true` exactly when `distance ≤ T`: a distance equal to `T` gives
    `true`, a strictly greater one gives `false`. -/
theorem shouldRenderEntity_iff_le_threshold (ctx : Context) (d : F32) (hd : 0 < d.toRat) :
    ∃ (k : Nat) (T : F32),
      (∀ fuel, k < fuel → visibleDistance ctx fuel d = some T) ∧
      (∀ fuel T', visibleDistance ctx fuel d = some T' → T' = T) ∧
      (∀ fuel, k < fuel → ∀ distance,
        shouldRenderEntity ctx fuel d distance = some (F32.le distance T)) ∧
      (∀ fuel, k < fuel → ∀ distance,
        (shouldRenderEntity ctx fuel d distance = some true ↔ distance.toRat ≤ T.toRat)) ∧
      (∀ fuel, k < fuel → shouldRenderEntity ctx fuel d T = some true) ∧
      (∀ fuel, k < fuel → ∀ distance, T.toRat < distance.toRat →
        shouldRenderEntity ctx fuel d distance = some false) := by
  have hdu : 0 < d.units := (toRat_pos_iff d).mp hd
  have hnh : ¬ hangs ctx d := by unfold hangs; omega
  obtain ⟨k, T, _, hT⟩ := visibleDistance_of_not_hangs ctx d hnh
  have hdec : ∀ fuel, k < fuel → ∀ distance,
      shouldRenderEntity ctx fuel d distance = some (F32.le distance T) := by
    intro fuel hf distance
    simp [shouldRenderEntity, hT fuel hf]
  refine ⟨k, T, hT, ?_, hdec, ?_, ?_, ?_⟩
  · intro fuel T' h
    exact visibleDistance_deterministic ctx d fuel (k + 1) T' T h (hT (k + 1) (Nat.lt_succ_self k))
  · intro fuel hf distance
    rw [hdec fuel hf distance, toRat_le_iff, Option.some.injEq, le_iff]
  · intro fuel hf
    rw [hdec fuel hf T, Option.some.injEq, le_iff]
  · intro fuel hf distance hlt
    rw [hdec fuel hf distance, Option.some.injEq]
    have : ¬ (distance.units ≤ T.units) := not_le.mpr ((toRat_lt_iff _ _).mp hlt)
    simpa [F32.le] using this

/-- Witness for C3 on the sample context, size `5000`. -/
theorem shouldRenderEntity_iff_le_threshold_witness :
    0 < (F32.ofInt 5000).toRat ∧
      ∃ (k : Nat) (T : F32), ∀ fuel, k < fuel →
        shouldRenderEntity sampleContext fuel (F32.ofInt 5000) T = some true :=
  have h : 0 < (F32.ofInt 5000).toRat := by
    rw [toRat_pos_iff]; norm_num [F32.ofInt]
  ⟨h,
    let ⟨k, T, hk⟩ := shouldRenderEntity_iff_le_threshold sampleContext (F32.ofInt 5000) h
    ⟨k, T, hk.2.2.2.2.1⟩⟩

/-! ## Termination of the halving loop -/

/-- Helper: equality of binary32 values from equality of units. -/
theorem F32_eq_of_units (x : F32) (m : Int) (h : x.units = m) : x = { units := m } := by
  cases x
  simp_all

/-- Helper: equality of loop states from equality of the two variables. -/
theorem LodState_eq (r : LodState) (a b : F32) (hs : r.scale = a)
    (hv : r.visibleDistanceAtScale = b) :
    r = { scale := a, visibleDistanceAtScale := b } := by
  cases r
  simp_all

/-- With size zero on the sample context the scale `16384 = 2^163` units is halved
    exactly `163` times to one unit, and the next halving rounds it to zero. -/
theorem halvingLoop_sample_zero (fuel : Nat) (hf : 164 < fuel) :
    halvingLoop F32.zero fuel (initialLod sampleContext)
      = some { scale := { units := 0 }, visibleDistanceAtScale := { units := 50 } } := by
  have hS : (initialLod sampleContext).scale.units = 2 ^ 163 * 1 := by
    show (F32.ofInt 16384).units = _
    rw [ofInt_16384_units]; norm_num
  have hB : (initialLod sampleContext).visibleDistanceAtScale.units = 2 ^ 165 * 25 := by
    show (baseThreshold sampleContext).units = _
    rw [baseThreshold_sampleContext]; norm_num [F32.ofInt]
  have hscale : ∀ j, j ≤ 163 → (halve^[j] (initialLod sampleContext)).scale.units
      = 2 ^ (163 - j) * 1 := by
    intro j hj
    rw [halve_iterate_scale]
    exact half_iterate_exact_le 163 j hj _ 1 hS
  have h164 : halve^[164] (initialLod sampleContext)
      = { scale := { units := 0 }, visibleDistanceAtScale := { units := 50 } } := by
    have hsc : (halve^[163] (initialLod sampleContext)).scale = { units := 1 } :=
      F32_eq_of_units _ 1 (by rw [hscale 163 (le_refl _)]; norm_num)
    have hv : (halve^[164] (initialLod sampleContext)).visibleDistanceAtScale
        = { units := 50 } := by
      apply F32_eq_of_units
      rw [halve_iterate_visible, half_iterate_exact_le 165 164 (by decide) _ 25 hB]
      norm_num
    have hs : (halve^[164] (initialLod sampleContext)).scale = { units := 0 } := by
      rw [Function.iterate_succ_apply']
      show (halve^[163] (initialLod sampleContext)).scale.half = _
      rw [hsc]
      simp [F32.half, F32.roundHalfEven]
    exact LodState_eq _ _ _ hs hv
  rw [← h164]
  apply halvingLoop_eq_iterate F32.zero 164 _ _ _ fuel hf
  · intro j hj
    rw [gt_iff, hscale j (by omega)]
    show (0 : Int) < 2 ^ (163 - j) * 1
    positivity
  · rw [h164]; rfl

/-- With tree scale `5` and a size of two units the loop leaves after `150` halvings:
    the scale, exactly five units after `149` halvings, is rounded to two units by
    the next one. -/
theorem halvingLoop_treeScaleFive (fuel : Nat) (hf : 150 < fuel) :
    ∃ r : LodState, halvingLoop { units := 2 } fuel (initialLod contextWithTreeScaleFive) = some r ∧
      r = halve^[150] (initialLod contextWithTreeScaleFive) ∧ r.scale = { units := 2 } := by
  have hS : (initialLod contextWithTreeScaleFive).scale.units = 2 ^ 149 * 5 := by
    show (F32.ofInt 5).units = _
    norm_num [F32.ofInt]
  have hscale : ∀ j, j ≤ 149 → (halve^[j] (initialLod contextWithTreeScaleFive)).scale.units
      = 2 ^ (149 - j) * 5 := by
    intro j hj
    rw [halve_iterate_scale]
    exact half_iterate_exact_le 149 j hj _ 5 hS
  have hsc : (halve^[149] (initialLod contextWithTreeScaleFive)).scale = { units := 5 } :=
    F32_eq_of_units _ 5 (by rw [hscale 149 (le_refl _)]; norm_num)
  have hs : (halve^[150] (initialLod contextWithTreeScaleFive)).scale = { units := 2 } := by
    rw [Function.iterate_succ_apply']
    show (halve^[149] (initialLod contextWithTreeScaleFive)).scale.half = _
    rw [hsc]
    simp [F32.half, F32.roundHalfEven]
  refine ⟨_, halvingLoop_eq_iterate { units := 2 } 150 _ ?_ ?_ fuel hf, rfl, hs⟩
  · intro j hj
    rw [gt_iff, hscale j (by omega)]
    show (2 : Int) < 2 ^ (149 - j) * 5
    have : (0 : Int) < 2 ^ (149 - j) := by positivity
    omega
  · rw [hs]; rfl

/-- Counterexample to C9 as stated. On the sample context (`S = 16384`) with size
    `0` the loop leaves after 164 halvings, when the scale has been rounded to zero,
    and `shouldRenderEntity(0, 0)` returns `true`: the loop does terminate for a
    non-positive size. And with tree scale `5` and the size `2 * 2^-149` the loop
    leaves after 150 halvings although `S / 2^150` is still above the size: the number
    of halvings is not the least `k` with `S / 2^k ≤ d`. -/
theorem halvingLoop_leaves_at_size_zero :
    sampleContext.TREE_SCALE.isBinary32 = true ∧
    0 < sampleContext.TREE_SCALE.toRat ∧
    F32.zero.toRat ≤ 0 ∧
    halvingLoop F32.zero 165 (initialLod sampleContext)
      = some { scale := { units := 0 }, visibleDistanceAtScale := { units := 50 } } ∧
    shouldRenderEntity sampleContext 165 F32.zero F32.zero = some true ∧
    contextWithTreeScaleFive.TREE_SCALE.isBinary32 = true ∧
    F32.isBinary32 { units := 2 } = true ∧
    halvingLoop { units := 2 } 151 (initialLod contextWithTreeScaleFive)
      = some (halve^[150] (initialLod contextWithTreeScaleFive)) ∧
    F32.toRat { units := 2 } < contextWithTreeScaleFive.TREE_SCALE.toRat / 2 ^ 150 := by
  have hrun := halvingLoop_sample_zero 165 (by decide)
  obtain ⟨r, hr, hr2, _⟩ := halvingLoop_treeScaleFive 151 (by decide)
  refine ⟨isBinary32_ofInt 16384 (by decide), sampleContext_treeScale_pos, ?_, hrun, ?_,
    isBinary32_ofInt 5 (by decide), isBinary32_small 2 (by decide), ?_, ?_⟩
  · simp [F32.toRat, F32.zero]
  · simp only [shouldRenderEntity, visibleDistance, hrun, Option.map_some', correction]
    rfl
  · rw [hr, hr2]
  · rw [toRat_lt_div_pow_iff]
    norm_num [contextWithTreeScaleFive, F32.ofInt]

/-- C9, amended: in binary32 with tree scale `S > 0`, the loop terminates for every
    size `d ≥ 0`, after the least `k` for which the scale halved `k` times in binary32
    is not above `d` (for `d = 0` that is when the scale has been rounded to zero);
    this `k` is the least `k` with `S / 2^k ≤ d` whenever `S / 2^k` is a binary32
    number; and for every `d < 0` the condition `scale > d` holds after any number of
    halvings, so the loop leaves for no fuel at all. -/
theorem halvingLoop_terminates_iff_nonneg (ctx : Context) (hS : 0 < ctx.TREE_SCALE.toRat)
    (d : F32) :
    (0 ≤ d.toRat →
      ∃ k : Nat, (∀ j, j < k → F32.gt (halve^[j] (initialLod ctx)).scale d = true) ∧
        F32.gt (halve^[k] (initialLod ctx)).scale d = false ∧
        (∀ fuel, k < fuel →
          halvingLoop d fuel (initialLod ctx) = some (halve^[k] (initialLod ctx))) ∧
        (∀ fuel, fuel ≤ k → halvingLoop d fuel (initialLod ctx) = none)) ∧
    (∀ (k : Nat) (x : F32), x.toRat = ctx.TREE_SCALE.toRat / 2 ^ k →
      ctx.TREE_SCALE.toRat / 2 ^ k ≤ d.toRat →
      (∀ j, j < k → d.toRat < ctx.TREE_SCALE.toRat / 2 ^ j) →
      (∀ fuel, k < fuel →
        halvingLoop d fuel (initialLod ctx) = some (halve^[k] (initialLod ctx))) ∧
      (∀ fuel, fuel ≤ k → halvingLoop d fuel (initialLod ctx) = none)) ∧
    (d.toRat < 0 →
      (∀ n, F32.gt (halve^[n] (initialLod ctx)).scale d = true) ∧
      ∀ fuel, halvingLoop d fuel (initialLod ctx) = none) := by
  have hSu : 0 < ctx.TREE_SCALE.units := (toRat_pos_iff _).mp hS
  refine ⟨?_, ?_, ?_⟩
  · intro hd
    obtain ⟨k, _, hlt, hge, hrun⟩ := halvingLoop_of_nonneg ctx d ((toRat_nonneg_iff d).mp hd)
    refine ⟨k, hlt, hge, hrun, ?_⟩
    intro fuel hf
    exact halvingLoop_eq_none d fuel _ (fun j hj => hlt j (by omega))
  · intro k x hx hle hlt
    have hxu := (toRat_eq_div_pow_iff x ctx.TREE_SCALE k).mp hx
    have hexit : x.units ≤ d.units := by
      have h1 := (toRat_div_pow_le_iff d ctx.TREE_SCALE k).mp hle
      rw [hxu] at h1
      exact le_of_mul_le_mul_left h1 (by positivity)
    have hcond : ∀ j, j < k → d.units < 2 ^ (k - j) * x.units := by
      intro j hj
      have h1 := (toRat_lt_div_pow_iff d ctx.TREE_SCALE j).mp (hlt j hj)
      have h2 : (2 : Int) ^ k = 2 ^ j * 2 ^ (k - j) := by
        rw [← pow_add]; congr 1; omega
      rw [hxu, h2, mul_assoc] at h1
      exact lt_of_mul_lt_mul_left h1 (by positivity)
    obtain ⟨_, _, _, h4, h5⟩ := halvingLoop_exact_run ctx d k x.units hxu hcond hexit
    exact ⟨h5, h4⟩
  · intro hd
    have hdu : d.units < 0 := (toRat_neg_iff d).mp hd
    have hall : ∀ n, F32.gt (halve^[n] (initialLod ctx)).scale d = true :=
      fun n => gt_iterate_of_neg d hdu n _ (by show d.units < ctx.TREE_SCALE.units; omega)
    exact ⟨hall, fun fuel => halvingLoop_eq_none d fuel _ (fun j _ => hall j)⟩

/-- Witness for C9 on the sample context, size `-1`. -/
theorem halvingLoop_terminates_iff_nonneg_witness :
    0 < sampleContext.TREE_SCALE.toRat ∧ (F32.ofInt (-1)).toRat < 0 ∧
      halvingLoop (F32.ofInt (-1)) 1000 (initialLod sampleContext) = none :=
  have h : (F32.ofInt (-1)).toRat < 0 := by
    rw [toRat_neg_iff]; norm_num [F32.ofInt]
  ⟨sampleContext_treeScale_pos, h,
    ((halvingLoop_terminates_iff_nonneg sampleContext sampleContext_treeScale_pos
      (F32.ofInt (-1))).2.2 h).2 1000⟩

/-! ## Size bands -/

/-- For a positive size there is a least number of halvings after which the scale
    is no longer above the size. -/
theorem exists_least_halvings (S d : ℚ) (hd : 0 < d) :
    ∃ k : Nat, S / 2 ^ k ≤ d ∧ ∀ j, j < k → d < S / 2 ^ j := by
  have hex : ∃ k : Nat, S / 2 ^ k ≤ d := by
    by_cases hS : S ≤ d
    · exact ⟨0, by simpa using hS⟩
    · have hS0 : 0 < S := lt_trans hd (not_le.mp hS)
      obtain ⟨n, hn⟩ := exists_pow_lt_of_lt_one (div_pos hd hS0) (by norm_num : (1 / 2 : ℚ) < 1)
      refine ⟨n, ?_⟩
      have h2 : (0 : ℚ) < 2 ^ n := by positivity
      rw [div_le_iff₀ h2]
      have : (1 / 2 : ℚ) ^ n = 1 / 2 ^ n := by rw [one_div, one_div, inv_pow]
      rw [this, div_lt_div_iff₀ h2 hS0] at hn
      linarith
  classical
  refine ⟨Nat.find hex, Nat.find_spec hex, ?_⟩
  intro j hj
  exact not_le.mp (Nat.find_min hex hj)

/-- Every size in `(0, S]` lies in exactly one band `S / 2^(k+1) < d ≤ S / 2^k`. -/
theorem exists_band (S d : ℚ) (hd : 0 < d) (hdS : d ≤ S) :
    ∃ k : Nat, S / 2 ^ (k + 1) < d ∧ d ≤ S / 2 ^ k := by
  have hex : ∃ k : Nat, S / 2 ^ (k + 1) < d := by
    obtain ⟨k, hk, _⟩ := exists_least_halvings S d hd
    refine ⟨k, lt_of_lt_of_le ?_ hk⟩
    have hS : 0 < S := lt_of_lt_of_le hd hdS
    apply div_lt_div_of_pos_left hS (by positivity)
    exact pow_lt_pow_right₀ (by norm_num) (Nat.lt_succ_self k)
  classical
  refine ⟨Nat.find hex, Nat.find_spec hex, ?_⟩
  cases hk : Nat.find hex with
  | zero => simpa using hdS
  | succ m =>
    have := Nat.find_min hex (m := m) (by omega)
    exact not_lt.mp this

/-- Helper: band indices are ordered against the sizes. -/
theorem band_index_mono (S d d' : ℚ) (k k' : Nat) (hS : 0 < S) (hle : d' ≤ d)
    (hlo' : S / 2 ^ (k' + 1) < d') (hhi : d ≤ S / 2 ^ k) : k ≤ k' := by
  have h : S / 2 ^ (k' + 1) < S / 2 ^ k := lt_of_lt_of_le hlo' (le_trans hle hhi)
  by_contra hcon
  have hk : k' + 1 ≤ k := by omega
  have h2 : (2 : ℚ) ^ (k' + 1) ≤ 2 ^ k := pow_le_pow_right₀ (by norm_num) hk
  have h3 : S / 2 ^ k ≤ S / 2 ^ (k' + 1) :=
    div_le_div_of_nonneg_left hS.le (by positivity) h2
  exact absurd h (not_lt.mpr h3)

/-- The run for a size strictly inside a band, when the `k + 1` halvings are exact:
    the scale holds `2^(k+1) * c` units with `c < d < 2 * c`, the base threshold
    `2^(k+1) * cb` units. -/
theorem band_strict_run (ctx : Context) (d : F32) (k : Nat) (c cb : Int)
    (hs : ctx.TREE_SCALE.units = 2 ^ (k + 1) * c) (hlo : c < d.units) (hhi : d.units < 2 * c)
    (hb : (baseThreshold ctx).units = 2 ^ (k + 1) * cb) :
    ∀ fuel, k + 1 < fuel → visibleDistance ctx fuel d = some { units := cb * 2 } := by
  intro fuel hf
  obtain ⟨_, _, hn, _, h5⟩ := halvingLoop_exact_run ctx d (k + 1) c hs
    (fun j hj => lt_pow_mul d.units c (k + 1 - j) (by omega) (by omega) hhi) hlo.le
  have hlt : F32.lt (halve^[k + 1] (initialLod ctx)).scale d = true := by
    rw [lt_iff, hn]; exact hlo
  have hv : (halve^[k + 1] (initialLod ctx)).visibleDistanceAtScale = { units := cb } :=
    F32_eq_of_units _ cb (by rw [halve_iterate_visible]; exact half_iterate_exact (k + 1) _ cb hb)
  simp only [visibleDistance, h5 fuel hf, Option.map_some', correction, hlt, if_true, hv,
    F32.double]

/-- The threshold of a size in the band `S / 2^(k+1) < d ≤ S / 2^k` when no halving
    the loop performs rounds: `T`, the binary32 number equal to `B / 2^k`. -/
theorem visibleDistance_band (ctx : Context) (d : F32) (k : Nat) (T : F32)
    (hlo : ctx.TREE_SCALE.toRat / 2 ^ (k + 1) < d.toRat)
    (hhi : d.toRat ≤ ctx.TREE_SCALE.toRat / 2 ^ k)
    (hT : T.toRat = (baseThreshold ctx).toRat / 2 ^ k)
    (hexact : d.toRat < ctx.TREE_SCALE.toRat / 2 ^ k →
      (∃ x : F32, x.toRat = ctx.TREE_SCALE.toRat / 2 ^ (k + 1)) ∧
      (∃ y : F32, y.toRat = (baseThreshold ctx).toRat / 2 ^ (k + 1))) :
    ∀ fuel, k + 1 < fuel → visibleDistance ctx fuel d = some T := by
  intro fuel hf
  rcases eq_or_lt_of_le hhi with heq | hlt
  · have hdu := (toRat_eq_div_pow_iff d ctx.TREE_SCALE k).mp heq
    have hdpos : 0 < d.units := by
      have h1 := (toRat_div_pow_lt_iff d ctx.TREE_SCALE (k + 1)).mp hlo
      rw [hdu, pow_succ] at h1
      have h2 : (0 : Int) < 2 ^ k := by positivity
      by_contra hneg
      have h3 : 2 ^ k * d.units ≤ 0 := mul_nonpos_of_nonneg_of_nonpos h2.le (by omega)
      nlinarith
    have hSu : 0 < ctx.TREE_SCALE.units := by
      rw [hdu]; positivity
    have h := (halved_scale_run ctx hSu k d hdu).2.2.2.2 fuel (by omega)
    rw [h.2, half_iterate_of_toRat _ T k hT]
  · obtain ⟨⟨x, hx⟩, ⟨y, hy⟩⟩ := hexact hlt
    have hxu := (toRat_eq_div_pow_iff x ctx.TREE_SCALE (k + 1)).mp hx
    have hyu := (toRat_eq_div_pow_iff y (baseThreshold ctx) (k + 1)).mp hy
    have hTu := (toRat_eq_div_pow_iff T (baseThreshold ctx) k).mp hT
    have h2k : (0 : Int) < 2 ^ k := by positivity
    have h1 : x.units < d.units := by
      have := (toRat_div_pow_lt_iff d ctx.TREE_SCALE (k + 1)).mp hlo
      rw [hxu] at this
      exact lt_of_mul_lt_mul_left this (by positivity)
    have h2 : d.units < 2 * x.units := by
      have := (toRat_lt_div_pow_iff d ctx.TREE_SCALE k).mp hlt
      rw [hxu, pow_succ, mul_assoc] at this
      exact lt_of_mul_lt_mul_left this h2k.le
    have h3 : T.units = y.units * 2 := by
      rw [hyu, pow_succ, mul_assoc] at hTu
      have := mul_left_cancel₀ h2k.ne' hTu
      omega
    rw [band_strict_run ctx d k x.units y.units hxu h1 h2 hyu fuel hf, ← h3]

/-- Halving `12288` (as a binary32 number) `161` times is exact and leaves three units;
    the next halving rounds `1.5` to two units. -/
theorem half_iterate_12288 :
    F32.half^[161] (F32.ofInt 12288) = { units := 3 } ∧
    F32.half^[162] (F32.ofInt 12288) = { units := 2 } := by
  have h161 : F32.half^[161] (F32.ofInt 12288) = { units := 3 } :=
    F32_eq_of_units _ 3
      (half_iterate_exact 161 (F32.ofInt 12288) 3 (by norm_num [F32.ofInt]))
  refine ⟨h161, ?_⟩
  rw [Function.iterate_succ_apply', h161]
  simp [F32.half, F32.roundHalfEven]

/-- Helper: a band can only belong to a positive tree scale. -/
theorem band_scale_pos (S d : ℚ) (k : Nat) (hlo : S / 2 ^ (k + 1) < d) (hhi : d ≤ S / 2 ^ k) :
    0 < S := by
  by_contra hS
  have hx : S / 2 ^ k ≤ 0 := div_nonpos_of_nonpos_of_nonneg (not_lt.mp hS) (by positivity)
  have h2 : S / 2 ^ (k + 1) = S / 2 ^ k / 2 := by rw [pow_succ, div_div]
  rw [h2] at hlo
  linarith

/-- Helper: the bounds on `B / 2^k` for a size in band `k`. -/
theorem band_bounds (S B d : ℚ) (k : Nat) (hlo : S / 2 ^ (k + 1) < d) (hhi : d ≤ S / 2 ^ k)
    (hB : 0 ≤ B) :
    B * d / S ≤ B / 2 ^ k ∧ (0 < B → B / 2 ^ k < 2 * B * d / S) := by
  have hS : 0 < S := band_scale_pos S d k hlo hhi
  have h2k : (0 : ℚ) < 2 ^ k := by positivity
  constructor
  · rw [div_le_div_iff₀ hS h2k]
    have h1 : d * 2 ^ k ≤ S := (le_div_iff₀ h2k).mp hhi
    nlinarith
  · intro hBpos
    rw [div_lt_div_iff₀ h2k hS]
    have h1 : S < d * 2 ^ (k + 1) := (div_lt_iff₀ (by positivity)).mp hlo
    rw [pow_succ] at h1
    nlinarith

/-- Counterexample to C10 as stated: with `TREE_SCALE = 16384` and base threshold
    `B = 12288 ≥ 0`, the size `3 * 2^-149` lies in the band `k = 161`
    (`S / 2^162 < d ≤ S / 2^161`) but gets the visible distance `4 * 2^-149`, not
    `B / 2^161 = 3 * 2^-149`; and the larger size `4 * 2^-149` gets the smaller visible
    distance `3 * 2^-149`, so the threshold is not non-decreasing in the size. All the
    inputs are binary32 numbers. -/
theorem visibleDistance_band_rounds_up :
    (contextWithSizeScale 49152).TREE_SCALE.isBinary32 = true ∧
    (contextWithSizeScale 49152).menu.voxelSizeScale.isBinary32 = true ∧
    F32.isBinary32 { units := 3 } = true ∧ F32.isBinary32 { units := 4 } = true ∧
    baseThreshold (contextWithSizeScale 49152) = F32.ofInt 12288 ∧
    0 ≤ (baseThreshold (contextWithSizeScale 49152)).toRat ∧
    (contextWithSizeScale 49152).TREE_SCALE.toRat / 2 ^ (161 + 1) < F32.toRat { units := 3 } ∧
    F32.toRat { units := 3 } ≤ (contextWithSizeScale 49152).TREE_SCALE.toRat / 2 ^ 161 ∧
    visibleDistance (contextWithSizeScale 49152) 163 { units := 3 } = some { units := 4 } ∧
    F32.toRat { units := 4 } ≠ (baseThreshold (contextWithSizeScale 49152)).toRat / 2 ^ 161 ∧
    F32.toRat { units := 4 } ≤ (contextWithSizeScale 49152).TREE_SCALE.toRat ∧
    visibleDistance (contextWithSizeScale 49152) 162 { units := 4 } = some { units := 3 } ∧
    F32.toRat { units := 3 } < F32.toRat { units := 4 } := by
  have hB : baseThreshold (contextWithSizeScale 49152) = F32.ofInt 12288 :=
    baseThreshold_contextWithSizeScale 12288
  have hSu : (contextWithSizeScale 49152).TREE_SCALE.units = 2 ^ 163 := by
    rw [treeScale_contextWithSizeScale, ofInt_16384_units]
  have hSpos : 0 < (contextWithSizeScale 49152).TREE_SCALE.units := by rw [hSu]; positivity
  have h3 : visibleDistance (contextWithSizeScale 49152) 163 { units := 3 }
      = some { units := 4 } := by
    obtain ⟨_, _, hn, _, h5⟩ := halvingLoop_exact_run (contextWithSizeScale 49152)
      { units := 3 } 162 2 (by rw [hSu]; norm_num)
      (fun j hj => lt_pow_mul 3 2 (162 - j) (by omega) (by decide) (by decide)) (by decide)
    have hlt : F32.lt (halve^[162] (initialLod (contextWithSizeScale 49152))).scale
        { units := 3 } = true := by
      rw [lt_iff, hn]; decide
    have hv : (halve^[162] (initialLod (contextWithSizeScale 49152))).visibleDistanceAtScale
        = { units := 2 } := by
      rw [halve_iterate_visible]
      show F32.half^[162] (baseThreshold (contextWithSizeScale 49152)) = _
      rw [hB, half_iterate_12288.2]
    simp only [visibleDistance, h5 163 (by decide), Option.map_some', correction, hlt, if_true,
      hv, F32.double]
    rfl
  have h4 : visibleDistance (contextWithSizeScale 49152) 162 { units := 4 }
      = some { units := 3 } := by
    have h := (halved_scale_run (contextWithSizeScale 49152) hSpos 161 { units := 4 }
      (by rw [hSu]; norm_num)).2.2.2.2 162 (by decide)
    rw [h.2, hB, half_iterate_12288.1]
  refine ⟨isBinary32_ofInt 16384 (by decide), isBinary32_ofInt 49152 (by decide),
    isBinary32_small 3 (by decide), isBinary32_small 4 (by decide), hB, ?_, ?_, ?_, h3, ?_, ?_,
    h4, ?_⟩
  · rw [hB, toRat_nonneg_iff]; norm_num [F32.ofInt]
  · rw [toRat_div_pow_lt_iff, hSu]; norm_num
  · rw [toRat_le_div_pow_iff, hSu]; norm_num
  · rw [hB, Ne, toRat_eq_div_pow_iff]; norm_num [F32.ofInt]
  · rw [toRat_le_iff, hSu]; norm_num
  · rw [toRat_lt_iff]; norm_num

/-- C10, amended: in binary32, for a size `d` in the band `S / 2^(k+1) < d ≤ S / 2^k`
    (so `0 < d ≤ S`) and `B ≥ 0`, when none of the halvings the loop performs rounds
    (`B / 2^k` is a binary32 number `T`, and for `d < S / 2^k` so are `S / 2^(k+1)` and
    `B / 2^(k+1)`), the computed visible distance is exactly `T = B / 2^k`; it
    satisfies `B * d / S ≤ T`, and `T < 2 * B * d / S` when `B > 0`; and a smaller size
    of the same kind gets a threshold that is not larger. Every size in `(0, S]` lies
    in such a band. -/
theorem visibleDistance_band_threshold (ctx : Context) (d : F32) (k : Nat) (T : F32)
    (hlo : ctx.TREE_SCALE.toRat / 2 ^ (k + 1) < d.toRat)
    (hhi : d.toRat ≤ ctx.TREE_SCALE.toRat / 2 ^ k)
    (hT : T.toRat = (baseThreshold ctx).toRat / 2 ^ k)
    (hexact : d.toRat < ctx.TREE_SCALE.toRat / 2 ^ k →
      (∃ x : F32, x.toRat = ctx.TREE_SCALE.toRat / 2 ^ (k + 1)) ∧
      (∃ y : F32, y.toRat = (baseThreshold ctx).toRat / 2 ^ (k + 1)))
    (hB : 0 ≤ (baseThreshold ctx).toRat) :
    (0 < d.toRat ∧ d.toRat ≤ ctx.TREE_SCALE.toRat) ∧
    (∀ fuel, k + 1 < fuel → visibleDistance ctx fuel d = some T) ∧
    (∀ fuel T0, visibleDistance ctx fuel d = some T0 → T0 = T) ∧
    (baseThreshold ctx).toRat * d.toRat / ctx.TREE_SCALE.toRat ≤ T.toRat ∧
    (0 < (baseThreshold ctx).toRat →
      T.toRat < 2 * (baseThreshold ctx).toRat * d.toRat / ctx.TREE_SCALE.toRat) ∧
    (∀ (d' : F32) (k' : Nat) (T' : F32),
      ctx.TREE_SCALE.toRat / 2 ^ (k' + 1) < d'.toRat →
      d'.toRat ≤ ctx.TREE_SCALE.toRat / 2 ^ k' →
      T'.toRat = (baseThreshold ctx).toRat / 2 ^ k' →
      (d'.toRat < ctx.TREE_SCALE.toRat / 2 ^ k' →
        (∃ x : F32, x.toRat = ctx.TREE_SCALE.toRat / 2 ^ (k' + 1)) ∧
        (∃ y : F32, y.toRat = (baseThreshold ctx).toRat / 2 ^ (k' + 1))) →
      d'.toRat ≤ d.toRat →
      (∀ fuel, k' + 1 < fuel → visibleDistance ctx fuel d' = some T') ∧
      T'.toRat ≤ T.toRat) ∧
    (∀ d0 : F32, 0 < d0.toRat → d0.toRat ≤ ctx.TREE_SCALE.toRat →
      ∃ k0 : Nat, ctx.TREE_SCALE.toRat / 2 ^ (k0 + 1) < d0.toRat ∧
        d0.toRat ≤ ctx.TREE_SCALE.toRat / 2 ^ k0) := by
  have hS : 0 < ctx.TREE_SCALE.toRat := band_scale_pos _ _ k hlo hhi
  have hrun := visibleDistance_band ctx d k T hlo hhi hT hexact
  have hbounds := band_bounds _ _ _ k hlo hhi hB
  have hdpos : 0 < d.toRat := lt_trans (by positivity) hlo
  have hdS : d.toRat ≤ ctx.TREE_SCALE.toRat :=
    le_trans hhi (div_le_self hS.le (one_le_pow₀ (by norm_num)))
  refine ⟨⟨hdpos, hdS⟩, hrun, ?_, ?_, ?_, ?_, ?_⟩
  · intro fuel T0 h0
    exact visibleDistance_deterministic ctx d fuel (k + 2) T0 T h0 (hrun (k + 2) (by omega))
  · rw [hT]; exact hbounds.1
  · intro hBpos
    rw [hT]; exact hbounds.2 hBpos
  · intro d' k' T' hlo' hhi' hT' hexact' hle
    refine ⟨visibleDistance_band ctx d' k' T' hlo' hhi' hT' hexact', ?_⟩
    rw [hT, hT']
    have hkk : k ≤ k' := band_index_mono _ _ _ k k' hS hle hlo' hhi
    apply div_le_div_of_nonneg_left hB (by positivity)
    exact pow_le_pow_right₀ (by norm_num) hkk
  · intro d0 h0 h0S
    exact exists_band _ _ h0 h0S

/-- Witness for C10 on the sample context: size `5000` lies in the band `k = 1`
    (`4096 < 5000 ≤ 8192`) and gets the threshold `819200 = 1638400 / 2`. -/
theorem visibleDistance_band_threshold_witness :
    sampleContext.TREE_SCALE.toRat / 2 ^ (1 + 1) < (F32.ofInt 5000).toRat ∧
    (F32.ofInt 5000).toRat ≤ sampleContext.TREE_SCALE.toRat / 2 ^ 1 ∧
    (F32.ofInt 819200).toRat = (baseThreshold sampleContext).toRat / 2 ^ 1 ∧
    (F32.ofInt 4096).toRat = sampleContext.TREE_SCALE.toRat / 2 ^ (1 + 1) ∧
    (F32.ofInt 409600).toRat = (baseThreshold sampleContext).toRat / 2 ^ (1 + 1) ∧
    0 ≤ (baseThreshold sampleContext).toRat ∧
    visibleDistance sampleContext 3 (F32.ofInt 5000) = some (F32.ofInt 819200) := by
  have hS : sampleContext.TREE_SCALE.units = 2 ^ 163 := ofInt_16384_units
  have h1 : sampleContext.TREE_SCALE.toRat / 2 ^ (1 + 1) < (F32.ofInt 5000).toRat := by
    rw [toRat_div_pow_lt_iff, hS]; norm_num [F32.ofInt]
  have h2 : (F32.ofInt 5000).toRat ≤ sampleContext.TREE_SCALE.toRat / 2 ^ 1 := by
    rw [toRat_le_div_pow_iff, hS]; norm_num [F32.ofInt]
  have h3 : (F32.ofInt 819200).toRat = (baseThreshold sampleContext).toRat / 2 ^ 1 := by
    rw [toRat_eq_div_pow_iff, baseThreshold_sampleContext]; norm_num [F32.ofInt]
  have h4 : (F32.ofInt 4096).toRat = sampleContext.TREE_SCALE.toRat / 2 ^ (1 + 1) := by
    rw [toRat_eq_div_pow_iff, hS]; norm_num [F32.ofInt]
  have h5 : (F32.ofInt 409600).toRat = (baseThreshold sampleContext).toRat / 2 ^ (1 + 1) := by
    rw [toRat_eq_div_pow_iff, baseThreshold_sampleContext]; norm_num [F32.ofInt]
  have h6 : 0 ≤ (baseThreshold sampleContext).toRat := by
    rw [toRat_nonneg_iff, baseThreshold_sampleContext]; norm_num [F32.ofInt]
  exact ⟨h1, h2, h3, h4, h5, h6,
    (visibleDistance_band_threshold sampleContext (F32.ofInt 5000) 1 (F32.ofInt 819200)
      h1 h2 h3 (fun _ => ⟨⟨_, h4⟩, ⟨_, h5⟩⟩) h6).2.1 3 (by decide)⟩

/-! ## The entity loop of `renderElement` -/

theorem entityLoop_zero (ctx : Context) (fuel : Nat) (entityItems : List EntityItem)
    (run : RenderRun) : entityLoop ctx fuel entityItems run 0 = run := by
  simp [entityLoop]

theorem entityLoop_succ (ctx : Context) (fuel : Nat) (entityItems : List EntityItem)
    (run : RenderRun) (n : Nat) :
    entityLoop ctx fuel entityItems run (n + 1)
      = renderEntityAt ctx fuel entityItems (entityLoop ctx fuel entityItems run n) n := by
  simp [entityLoop, List.range_succ, List.foldl_append]

/-- The five ways one iteration can go. -/
theorem renderEntityAt_cases (ctx : Context) (fuel : Nat) (entityItems : List EntityItem)
    (run : RenderRun) (i : Nat) :
    (renderEntityAt ctx fuel entityItems run i = run ∧
      (run.stuck = true ∨ entityItems[i]? = none ∨
        ∃ e, entityItems[i]? = some e ∧ e.isVisible = false)) ∨
    (∃ e, run.stuck = false ∧ entityItems[i]? = some e ∧ e.isVisible = true ∧
      renderCheck ctx fuel e = none ∧
      renderEntityAt ctx fuel entityItems run i = { run with stuck := true }) ∨
    (∃ e, run.stuck = false ∧ entityItems[i]? = some e ∧ e.isVisible = true ∧
      renderCheck ctx fuel e = some true ∧
      renderEntityAt ctx fuel entityItems run i
        = { run with events := run.events ++ drawEvents i e }) ∨
    (∃ e, run.stuck = false ∧ entityItems[i]? = some e ∧ e.isVisible = true ∧
      renderCheck ctx fuel e = some false ∧
      renderEntityAt ctx fuel entityItems run i
        = { run with args :=
              { run.args with _itemsOutOfView := run.args._itemsOutOfView + 1 } }) := by
  unfold renderEntityAt
  cases hs : run.stuck with
  | true => left; simp
  | false =>
    cases hg : entityItems[i]? with
    | none => left; simp
    | some e =>
      cases hv : e.isVisible with
      | false => left; simp [hv]
      | true =>
        right
        cases hc : renderCheck ctx fuel e with
        | none => left; exact ⟨e, rfl, rfl, hv, hc, by simp [hv, hc]⟩
        | some b =>
          cases b with
          | true => right; left; exact ⟨e, rfl, rfl, hv, hc, by simp [hv, hc]⟩
          | false => right; right; exact ⟨e, rfl, rfl, hv, hc, by simp [hv, hc]⟩

/-- The loop never changes `_elementsTouched`. -/
theorem entityLoop_elementsTouched (ctx : Context) (fuel : Nat) (entityItems : List EntityItem)
    (run : RenderRun) (n : Nat) :
    (entityLoop ctx fuel entityItems run n).args._elementsTouched = run.args._elementsTouched := by
  induction n with
  | zero => rw [entityLoop_zero]
  | succ n ih =>
    rw [entityLoop_succ]
    rcases renderEntityAt_cases ctx fuel entityItems (entityLoop ctx fuel entityItems run n) n with
      ⟨h, _⟩ | ⟨e, _, _, _, _, h⟩ | ⟨e, _, _, _, _, h⟩ | ⟨e, _, _, _, _, h⟩ <;>
    rw [h] <;> exact ih

/-- A run that is not stuck at the end was not stuck before. -/
theorem entityLoop_stuck_mono (ctx : Context) (fuel : Nat) (entityItems : List EntityItem)
    (run : RenderRun) (n : Nat)
    (h : (entityLoop ctx fuel entityItems run (n + 1)).stuck = false) :
    (entityLoop ctx fuel entityItems run n).stuck = false := by
  rw [entityLoop_succ] at h
  rcases renderEntityAt_cases ctx fuel entityItems (entityLoop ctx fuel entityItems run n) n with
    ⟨h1, _⟩ | ⟨e, h1, _⟩ | ⟨e, h1, _⟩ | ⟨e, h1, _⟩
  · rw [h1] at h; exact h
  · exact h1
  · exact h1
  · exact h1

/-- When the loop has run to the end of its bound without getting stuck, it has added
    to `_itemsOutOfView` the number of culled entities among the first `n` of the list. -/
theorem entityLoop_itemsOutOfView (ctx : Context) (fuel : Nat) (entityItems : List EntityItem)
    (run : RenderRun) (n : Nat)
    (hfin : (entityLoop ctx fuel entityItems run n).stuck = false) :
    (entityLoop ctx fuel entityItems run n).args._itemsOutOfView
      = run.args._itemsOutOfView + (entityItems.take n).countP (culled ctx fuel) := by
  induction n with
  | zero => simp [entityLoop_zero]
  | succ n ih =>
    have hprev := entityLoop_stuck_mono ctx fuel entityItems run n hfin
    have ih' := ih hprev
    rw [entityLoop_succ] at hfin ⊢
    rw [List.take_succ, List.countP_append]
    rcases renderEntityAt_cases ctx fuel entityItems (entityLoop ctx fuel entityItems run n) n with
      ⟨h, hc⟩ | ⟨e, _, _, _, _, h⟩ | ⟨e, _, hg, hv, hc, h⟩ | ⟨e, _, hg, hv, hc, h⟩
    · rw [h, ih']
      rcases hc with hs | hnone | ⟨e, hg, hv⟩
      · rw [hs] at hprev; exact absurd hprev (by simp)
      · simp [hnone]
      · simp [hg, culled, hv]
    · rw [h] at hfin; simp at hfin
    · rw [h]
      simp [ih', hg, culled, hv, hc]
    · rw [h]
      simp [ih', hg, culled, hv, hc, Nat.add_assoc]

/-- A draw call in the log was either there before the loop or belongs to a position
    below the bound whose entity is visible and passes the inner `if`. -/
theorem entityLoop_entityRender_mem (ctx : Context) (fuel : Nat) (entityItems : List EntityItem)
    (run : RenderRun) (n i : Nat)
    (h : RenderEvent.entityRender i ∈ (entityLoop ctx fuel entityItems run n).events) :
    RenderEvent.entityRender i ∈ run.events ∨
      (i < n ∧ ∃ e, entityItems[i]? = some e ∧ e.isVisible = true ∧
        renderCheck ctx fuel e = some true) := by
  induction n with
  | zero => left; simpa [entityLoop_zero] using h
  | succ n ih =>
    rw [entityLoop_succ] at h
    have lift : (RenderEvent.entityRender i ∈ (entityLoop ctx fuel entityItems run n).events) →
        RenderEvent.entityRender i ∈ run.events ∨
          (i < n + 1 ∧ ∃ e, entityItems[i]? = some e ∧ e.isVisible = true ∧
            renderCheck ctx fuel e = some true) := by
      intro hm
      rcases ih hm with h1 | ⟨h1, h2⟩
      · exact Or.inl h1
      · exact Or.inr ⟨by omega, h2⟩
    rcases renderEntityAt_cases ctx fuel entityItems (entityLoop ctx fuel entityItems run n) n with
      ⟨h1, _⟩ | ⟨e, _, _, _, _, h1⟩ | ⟨e, _, hg, hv, hc, h1⟩ | ⟨e, _, _, _, _, h1⟩
    · rw [h1] at h; exact lift h
    · rw [h1] at h; exact lift h
    · rw [h1] at h
      simp only [List.mem_append] at h
      rcases h with h | h
      · exact lift h
      · have hin : i = n := by
          unfold drawEvents at h
          split at h <;> simpa using h
        subst hin
        exact Or.inr ⟨Nat.lt_succ_self _, e, hg, hv, hc⟩
    · rw [h1] at h; exact lift h

/-- The loop adds the draw call of a position at most once, and only for a position
    below its bound. -/
theorem entityLoop_entityRender_count (ctx : Context) (fuel : Nat)
    (entityItems : List EntityItem) (run : RenderRun) (n i : Nat) :
    (entityLoop ctx fuel entityItems run n).events.count (RenderEvent.entityRender i)
      ≤ run.events.count (RenderEvent.entityRender i) + (if i < n then 1 else 0) := by
  induction n with
  | zero => simp [entityLoop_zero]
  | succ n ih =>
    rw [entityLoop_succ]
    have lift : (entityLoop ctx fuel entityItems run n).events.count (RenderEvent.entityRender i)
        ≤ run.events.count (RenderEvent.entityRender i) + (if i < n + 1 then 1 else 0) := by
      refine le_trans ih ?_
      split_ifs <;> omega
    rcases renderEntityAt_cases ctx fuel entityItems (entityLoop ctx fuel entityItems run n) n with
      ⟨h1, _⟩ | ⟨e, _, _, _, _, h1⟩ | ⟨e, _, hg, hv, hc, h1⟩ | ⟨e, _, _, _, _, h1⟩
    · rw [h1]; exact lift
    · rw [h1]; exact lift
    · rw [h1]
      simp only [List.count_append]
      have hd : (drawEvents n e).count (RenderEvent.entityRender i) = if i = n then 1 else 0 := by
        unfold drawEvents
        by_cases hin : i = n
        · subst hin; split <;> simp
        · have hne : n ≠ i := fun h => hin h.symm
          split <;> simp [hin, hne]
      rw [hd]
      by_cases hin : i = n
      · subst hin
        simp only [lt_irrefl, if_false, if_true, Nat.lt_succ_self] at ih ⊢
        omega
      · simp only [hin, if_false, Nat.add_zero]
        exact lift
    · rw [h1]; exact lift

/-- The loop does not get stuck when the inner `if` comes to a result for every
    visible entity of the list. -/
theorem entityLoop_not_stuck (ctx : Context) (fuel : Nat) (entityItems : List EntityItem)
    (run : RenderRun) (n : Nat) (hrun : run.stuck = false)
    (hall : ∀ e ∈ entityItems, e.isVisible = true → renderCheck ctx fuel e ≠ none) :
    (entityLoop ctx fuel entityItems run n).stuck = false := by
  induction n with
  | zero => rw [entityLoop_zero]; exact hrun
  | succ n ih =>
    rw [entityLoop_succ]
    rcases renderEntityAt_cases ctx fuel entityItems (entityLoop ctx fuel entityItems run n) n with
      ⟨h1, _⟩ | ⟨e, _, hg, hv, hc, _⟩ | ⟨e, _, _, _, _, h1⟩ | ⟨e, _, _, _, _, h1⟩
    · rw [h1]; exact ih
    · exact absurd hc (hall e (List.getElem?_mem hg) hv)
    · rw [h1]; exact ih
    · rw [h1]; exact ih

/-- The inner `if` is true exactly when `shouldRenderEntity` accepts and the cube is not
    outside the frustum. -/
theorem renderCheck_eq_some_true (ctx : Context) (fuel : Nat) (e : EntityItem) :
    renderCheck ctx fuel e = some true ↔
      shouldRenderEntity ctx fuel e.largestDimension e.distance = some true ∧
        e.cubeInFrustum ≠ ViewFrustum.location.OUTSIDE := by
  unfold renderCheck
  cases h : shouldRenderEntity ctx fuel e.largestDimension e.distance with
  | none => simp
  | some b => cases b <;> simp

/-- The run of `renderElement` is the entity loop, bounded by the narrowed count, started
    after the counter increment and the optional proxy drawing. -/
theorem renderElement_eq (ctx : Context) (fuel : Nat) (entityItems : List EntityItem)
    (args : RenderArgs) :
    ∃ proxy : List RenderEvent,
      (proxy = [] ∨ proxy = [RenderEvent.elementProxy]) ∧
      renderElement ctx fuel entityItems args
        = entityLoop ctx fuel entityItems
            { args := { args with _elementsTouched := args._elementsTouched + 1 },
              events := proxy, stuck := false }
            (numberOfEntities entityItems) := by
  unfold renderElement
  simp only
  split
  · exact ⟨_, Or.inr rfl, rfl⟩
  · exact ⟨_, Or.inl rfl, rfl⟩

/-- Unless the size hangs, the inner `if` comes to a result for every fuel above the
    number of units of the tree scale. -/
theorem renderCheck_of_not_hangs (ctx : Context) (e : EntityItem)
    (h : ¬ hangs ctx e.largestDimension) (fuel : Nat) (hf : ctx.TREE_SCALE.units.toNat < fuel) :
    renderCheck ctx fuel e ≠ none := by
  obtain ⟨k, T, hk, hT⟩ := visibleDistance_of_not_hangs ctx e.largestDimension h
  simp [renderCheck, shouldRenderEntity, hT fuel (by omega)]

/-- On a size that hangs `shouldRenderEntity` returns for no fuel. -/
theorem shouldRenderEntity_of_hangs (ctx : Context) (d distance : F32) (h : hangs ctx d)
    (fuel : Nat) : shouldRenderEntity ctx fuel d distance = none := by
  simp [shouldRenderEntity, visibleDistance, halvingLoop_of_hangs ctx d h fuel]

/-- If `shouldRenderEntity` does not return although the fuel is above the number of
    units of the tree scale, the size hangs. -/
theorem hangs_of_renderCheck_none (ctx : Context) (e : EntityItem) (fuel : Nat)
    (hf : ctx.TREE_SCALE.units.toNat < fuel) (h : renderCheck ctx fuel e = none) :
    hangs ctx e.largestDimension := by
  by_contra hn
  exact renderCheck_of_not_hangs ctx e hn fuel hf h

/-- A stuck run was stuck at the start or met a visible entity on which the inner `if`
    did not come to a result. -/
theorem entityLoop_stuck_cause (ctx : Context) (fuel : Nat) (entityItems : List EntityItem)
    (run : RenderRun) (n : Nat) (hrun : run.stuck = false)
    (h : (entityLoop ctx fuel entityItems run n).stuck = true) :
    ∃ e ∈ entityItems, e.isVisible = true ∧ renderCheck ctx fuel e = none := by
  induction n with
  | zero => rw [entityLoop_zero, hrun] at h; exact absurd h (by simp)
  | succ n ih =>
    rw [entityLoop_succ] at h
    rcases renderEntityAt_cases ctx fuel entityItems (entityLoop ctx fuel entityItems run n) n with
      ⟨h1, _⟩ | ⟨e, _, hg, hv, hc, _⟩ | ⟨e, hs, _, _, _, h1⟩ | ⟨e, hs, _, _, _, h1⟩
    · rw [h1] at h; exact ih h
    · exact ⟨e, List.getElem?_mem hg, hv, hc⟩
    · rw [h1] at h; simp only at h; rw [hs] at h; exact absurd h (by simp)
    · rw [h1] at h; simp only at h; rw [hs] at h; exact absurd h (by simp)

/-- Once a position below the bound holds a visible entity on which the inner `if`
    does not come to a result, the run is stuck. -/
theorem entityLoop_stuck_of_none (ctx : Context) (fuel : Nat) (entityItems : List EntityItem)
    (run : RenderRun) (n i : Nat) (e : EntityItem) (hi : i < n)
    (hg : entityItems[i]? = some e) (hv : e.isVisible = true)
    (hc : renderCheck ctx fuel e = none) :
    (entityLoop ctx fuel entityItems run n).stuck = true := by
  induction n with
  | zero => omega
  | succ n ih =>
    rw [entityLoop_succ]
    rcases renderEntityAt_cases ctx fuel entityItems (entityLoop ctx fuel entityItems run n) n with
      ⟨h1, hr⟩ | ⟨e', _, _, _, _, h1⟩ | ⟨e', hs, hg', _, hc', h1⟩ | ⟨e', hs, hg', _, hc', h1⟩
    · rw [h1]
      rcases hr with hst | hnone | ⟨e', hg', hv'⟩
      · exact hst
      · rcases Nat.lt_succ_iff_lt_or_eq.mp hi with hlt | heq
        · exact ih hlt
        · subst heq; rw [hg] at hnone; exact absurd hnone (by simp)
      · rcases Nat.lt_succ_iff_lt_or_eq.mp hi with hlt | heq
        · exact ih hlt
        · subst heq; rw [hg] at hg'; cases hg'; rw [hv] at hv'; exact absurd hv' (by simp)
    · rw [h1]
    · rcases Nat.lt_succ_iff_lt_or_eq.mp hi with hlt | heq
      · rw [ih hlt] at hs; exact absurd hs (by simp)
      · subst heq; rw [hg] at hg'; cases hg'; rw [hc] at hc'; exact absurd hc' (by simp)
    · rcases Nat.lt_succ_iff_lt_or_eq.mp hi with hlt | heq
      · rw [ih hlt] at hs; exact absurd hs (by simp)
      · subst heq; rw [hg] at hg'; cases hg'; rw [hc] at hc'; exact absurd hc' (by simp)

/-! ## `renderElement` -/

/-- C4: in one `renderElement` call the draw call of each list position `i` is issued
    at most once, and if it is issued then `i` is a position of the list, the entity there
    is visible, `shouldRenderEntity` accepts its size and distance, and its cube is not
    `OUTSIDE` the frustum; an entity whose cube is `OUTSIDE` is never drawn, whatever its
    visibility, size and distance. This holds for every fuel; and with a fuel above the
    number of units of the tree scale the run is cut short only where the code itself
    does not return: at a visible entity whose size is negative and below the tree scale,
    on which `shouldRenderEntity` returns for no fuel. -/
theorem renderElement_draw_once_only_if_checked (ctx : Context) (fuel : Nat)
    (entityItems : List EntityItem) (args : RenderArgs) (i : Nat) :
    (renderElement ctx fuel entityItems args).events.count (RenderEvent.entityRender i) ≤ 1 ∧
    (RenderEvent.entityRender i ∈ (renderElement ctx fuel entityItems args).events →
      ∃ e, entityItems[i]? = some e ∧ e.isVisible = true ∧
        shouldRenderEntity ctx fuel e.largestDimension e.distance = some true ∧
        e.cubeInFrustum ≠ ViewFrustum.location.OUTSIDE) ∧
    (∀ e, entityItems[i]? = some e → e.cubeInFrustum = ViewFrustum.location.OUTSIDE →
      RenderEvent.entityRender i ∉ (renderElement ctx fuel entityItems args).events) ∧
    (ctx.TREE_SCALE.units.toNat < fuel →
      (renderElement ctx fuel entityItems args).stuck = true →
      ∃ e ∈ entityItems, e.isVisible = true ∧ hangs ctx e.largestDimension ∧
        ∀ fuel', shouldRenderEntity ctx fuel' e.largestDimension e.distance = none) := by
  obtain ⟨proxy, hproxy, heq⟩ := renderElement_eq ctx fuel entityItems args
  have hnot : RenderEvent.entityRender i ∉ proxy := by
    rcases hproxy with h | h <;> simp [h]
  have hmem : RenderEvent.entityRender i ∈ (renderElement ctx fuel entityItems args).events →
      ∃ e, entityItems[i]? = some e ∧ e.isVisible = true ∧
        shouldRenderEntity ctx fuel e.largestDimension e.distance = some true ∧
        e.cubeInFrustum ≠ ViewFrustum.location.OUTSIDE := by
    intro h
    rw [heq] at h
    rcases entityLoop_entityRender_mem ctx fuel entityItems _ _ i h with h0 | ⟨_, e, hg, hv, hc⟩
    · exact absurd h0 hnot
    · exact ⟨e, hg, hv, (renderCheck_eq_some_true ctx fuel e).mp hc⟩
  refine ⟨?_, hmem, ?_, ?_⟩
  · rw [heq]
    have hc := entityLoop_entityRender_count ctx fuel entityItems
      { args := { args with _elementsTouched := args._elementsTouched + 1 },
        events := proxy, stuck := false } (numberOfEntities entityItems) i
    have h0 : proxy.count (RenderEvent.entityRender i) = 0 := List.count_eq_zero.mpr hnot
    simp only [h0, Nat.zero_add] at hc
    refine le_trans hc ?_
    split_ifs <;> omega
  · intro e hg hout hin
    obtain ⟨e', hg', _, _, hne⟩ := hmem hin
    rw [hg] at hg'
    cases hg'
    exact hne hout
  · intro hf hstuck
    rw [heq] at hstuck
    obtain ⟨e, he, hv, hc⟩ := entityLoop_stuck_cause ctx fuel entityItems _ _ rfl hstuck
    have hh := hangs_of_renderCheck_none ctx e fuel hf hc
    exact ⟨e, he, hv, hh, fun fuel' => shouldRenderEntity_of_hangs ctx _ _ hh fuel'⟩

/-- Values of the inner `if` on the sample entities: the three entities as large as
    the tree pass or fail on the first test of the loop; the entity of size zero passes
    after the 164 halvings that bring the scale to zero. -/
theorem renderCheck_samples :
    (∀ fuel, 0 < fuel → renderCheck sampleContext fuel nearEntity = some true) ∧
    (∀ fuel, 0 < fuel → renderCheck sampleContext fuel farEntity = some false) ∧
    (∀ fuel, 0 < fuel → renderCheck sampleContext fuel hiddenFarEntity = some false) ∧
    (∀ fuel, 164 < fuel → renderCheck sampleContext fuel zeroSizeEntity = some true) := by
  have hv : ∀ fuel, 0 < fuel →
      visibleDistance sampleContext fuel (F32.ofInt 16384) = some (F32.ofInt 1638400) := by
    intro fuel hf
    have hSu : 0 < sampleContext.TREE_SCALE.units := (toRat_pos_iff _).mp sampleContext_treeScale_pos
    have h := (halved_scale_run sampleContext hSu 0 (F32.ofInt 16384)
      (by simp [sampleContext])).2.2.2.2 fuel hf
    rw [h.2, baseThreshold_sampleContext]
    rfl
  have hle1 : F32.le F32.zero (F32.ofInt 1638400) = true := by
    rw [le_iff]; norm_num [F32.zero, F32.ofInt]
  have hle2 : F32.le (F32.ofInt 2000000) (F32.ofInt 1638400) = false := by
    have : ¬ ((F32.ofInt 2000000).units ≤ (F32.ofInt 1638400).units) := by
      norm_num [F32.ofInt]
    simpa [F32.le] using this
  have hnear : nearEntity.largestDimension = F32.ofInt 16384 := rfl
  have hfar : farEntity.largestDimension = F32.ofInt 16384 := rfl
  have hhid : hiddenFarEntity.largestDimension = F32.ofInt 16384 := rfl
  refine ⟨?_, ?_, ?_, ?_⟩
  · intro fuel hf
    have hd : nearEntity.distance = F32.zero := rfl
    have hc : nearEntity.cubeInFrustum = ViewFrustum.location.INSIDE := rfl
    simp [renderCheck, shouldRenderEntity, hnear, hv fuel hf, hd, hle1, hc]
  · intro fuel hf
    have hd : farEntity.distance = F32.ofInt 2000000 := rfl
    simp [renderCheck, shouldRenderEntity, hfar, hv fuel hf, hd, hle2]
  · intro fuel hf
    have hd : hiddenFarEntity.distance = F32.ofInt 2000000 := rfl
    simp [renderCheck, shouldRenderEntity, hhid, hv fuel hf, hd, hle2]
  · intro fuel hf
    have hz : zeroSizeEntity.largestDimension = F32.zero := rfl
    have hd : zeroSizeEntity.distance = F32.zero := rfl
    have hc : zeroSizeEntity.cubeInFrustum = ViewFrustum.location.INSIDE := rfl
    have hl : F32.lt { units := 0 } F32.zero = false := rfl
    have hle : F32.le F32.zero { units := 50 } = true := rfl
    simp [renderCheck, shouldRenderEntity, visibleDistance, hz, hd,
      halvingLoop_sample_zero fuel hf, correction, hl, hle, hc]

/-- A visible entity of size zero does not stop the loop: it is drawn (the scale has
    been rounded to zero after 164 halvings) and so is the entity after it. -/
theorem renderElement_zero_size_then_near (fuel : Nat) (hf : 164 < fuel) :
    renderElement sampleContext fuel [zeroSizeEntity, nearEntity] freshArgs
      = { args := { freshArgs with _elementsTouched := 1 },
          events := [RenderEvent.entityRender 0, RenderEvent.entityRender 1],
          stuck := false } := by
  have hz := renderCheck_samples.2.2.2 fuel hf
  have hn := renderCheck_samples.1 fuel (by omega)
  have hvz : zeroSizeEntity.isVisible = true := rfl
  have hvn : nearEntity.isVisible = true := rfl
  have hgz : F32.gt zeroSizeEntity.glowLevel F32.zero = false := rfl
  have hgn : F32.gt nearEntity.glowLevel F32.zero = false := rfl
  have hmenu : sampleContext.menu.displayModelElementProxy = false := rfl
  simp [renderElement, numberOfEntities, entityLoop, freshArgs, renderEntityAt, hz, hn,
    List.range_succ, drawEvents, hvz, hvn, hgz, hgn, hmenu]

/-- C7: the loop bound is the list size narrowed to 16 bits, so a draw call is only ever
    issued for a position below `size mod 65536`; on a list of `65536` visible entities
    that all pass the check the bound is `0`, no entity is examined and none is drawn,
    while the same entity alone in a list is drawn. -/
theorem renderElement_bound_is_narrowed_size (fuel : Nat) :
    (∀ (ctx : Context) (entityItems : List EntityItem) (args : RenderArgs) (i : Nat),
      RenderEvent.entityRender i ∈ (renderElement ctx fuel entityItems args).events →
        i < entityItems.length % 65536) ∧
    numberOfEntities (List.replicate 65536 nearEntity) = 0 ∧
    renderElement sampleContext (fuel + 1) (List.replicate 65536 nearEntity) freshArgs
      = { args := { freshArgs with _elementsTouched := 1 }, events := [], stuck := false } ∧
    renderElement sampleContext (fuel + 1) [nearEntity] freshArgs
      = { args := { freshArgs with _elementsTouched := 1 },
          events := [RenderEvent.entityRender 0], stuck := false } := by
  refine ⟨?_, ?_, ?_, ?_⟩
  · intro ctx entityItems args i h
    obtain ⟨proxy, hproxy, heq⟩ := renderElement_eq ctx fuel entityItems args
    rw [heq] at h
    rcases entityLoop_entityRender_mem ctx fuel entityItems _ _ i h with h0 | ⟨hlt, _⟩
    · rcases hproxy with hp | hp <;> simp [hp] at h0
    · exact hlt
  · rw [numberOfEntities, List.length_replicate]
  · have hn : numberOfEntities (List.replicate 65536 nearEntity) = 0 := by
      rw [numberOfEntities, List.length_replicate]
    generalize List.replicate 65536 nearEntity = l at hn
    simp [renderElement, hn, entityLoop, freshArgs]
  · have hc := renderCheck_samples.1 (fuel + 1) (Nat.succ_pos fuel)
    have hvis : nearEntity.isVisible = true := rfl
    have hglow : F32.gt nearEntity.glowLevel F32.zero = false := rfl
    have hmenu : sampleContext.menu.displayModelElementProxy = false := rfl
    simp [renderElement, numberOfEntities, entityLoop, freshArgs, renderEntityAt, hc,
      List.range_succ, drawEvents, hvis, hglow, hmenu]

/-- Counterexample to C8 as stated: an entity that is not visible and lies beyond the
    visible distance for its size fails the render check, yet the call returns without
    counting it in `_itemsOutOfView`. -/
theorem renderElement_hidden_entity_not_counted :
    (renderElement sampleContext 165 [hiddenFarEntity] freshArgs).stuck = false ∧
    ([hiddenFarEntity].filter (failsRenderCheck sampleContext 165)).length = 1 ∧
    (renderElement sampleContext 165 [hiddenFarEntity] freshArgs).args._itemsOutOfView
      = freshArgs._itemsOutOfView ∧
    ¬ ((renderElement sampleContext 165 [hiddenFarEntity] freshArgs).args._itemsOutOfView
        = freshArgs._itemsOutOfView
          + ([hiddenFarEntity].filter (failsRenderCheck sampleContext 165)).length) := by
  have hc := renderCheck_samples.2.2.1 165 (by decide)
  have hrun : renderElement sampleContext 165 [hiddenFarEntity] freshArgs
      = { args := { freshArgs with _elementsTouched := 1 }, events := [], stuck := false } := by
    have hvis : hiddenFarEntity.isVisible = false := rfl
    have hmenu : sampleContext.menu.displayModelElementProxy = false := rfl
    simp [renderElement, numberOfEntities, entityLoop, freshArgs, renderEntityAt,
      List.range_succ, hvis, hmenu]
  have hcount : ([hiddenFarEntity].filter (failsRenderCheck sampleContext 165)).length = 1 := by
    simp [failsRenderCheck, hc]
  rw [hrun, hcount]
  simp [freshArgs]

/-- C8, amended: for a list of fewer than `65536` entities, one `renderElement` call
    adds exactly 1 to `_elementsTouched`; when it returns it has added to
    `_itemsOutOfView` exactly the number of entities that are visible and fail the
    render check (entities that are not visible are not counted); an entity that is
    drawn is not among the counted ones. The call returns (for every fuel above the
    number of units of the tree scale) exactly when no visible entity of the list has
    a size that is negative and below the tree scale; when there is one, it returns
    for no fuel. -/
theorem renderElement_counters (ctx : Context) (fuel : Nat) (entityItems : List EntityItem)
    (args : RenderArgs) (hlen : entityItems.length < 65536) :
    (renderElement ctx fuel entityItems args).args._elementsTouched
      = args._elementsTouched + 1 ∧
    ((renderElement ctx fuel entityItems args).stuck = false →
      (renderElement ctx fuel entityItems args).args._itemsOutOfView
        = args._itemsOutOfView + (entityItems.filter (culled ctx fuel)).length) ∧
    (∀ i, RenderEvent.entityRender i ∈ (renderElement ctx fuel entityItems args).events →
      ∃ e, entityItems[i]? = some e ∧ culled ctx fuel e = false) ∧
    ((∀ e ∈ entityItems, e.isVisible = true → ¬ hangs ctx e.largestDimension) →
      ∀ fuel', ctx.TREE_SCALE.units.toNat < fuel' →
        (renderElement ctx fuel' entityItems args).stuck = false ∧
        (renderElement ctx fuel' entityItems args).args._itemsOutOfView
          = args._itemsOutOfView + (entityItems.filter (culled ctx fuel')).length) ∧
    ((∃ e ∈ entityItems, e.isVisible = true ∧ hangs ctx e.largestDimension) →
      ∀ fuel', (renderElement ctx fuel' entityItems args).stuck = true) := by
  have hn : numberOfEntities entityItems = entityItems.length := Nat.mod_eq_of_lt hlen
  have hcount : ∀ fuel0, (renderElement ctx fuel0 entityItems args).stuck = false →
      (renderElement ctx fuel0 entityItems args).args._itemsOutOfView
        = args._itemsOutOfView + (entityItems.filter (culled ctx fuel0)).length := by
    intro fuel0 hfin
    obtain ⟨proxy, _, heq⟩ := renderElement_eq ctx fuel0 entityItems args
    rw [heq] at hfin ⊢
    rw [entityLoop_itemsOutOfView ctx fuel0 entityItems _ _ hfin, hn, List.take_length,
      List.countP_eq_length_filter]
  obtain ⟨proxy, hproxy, heq⟩ := renderElement_eq ctx fuel entityItems args
  refine ⟨?_, hcount fuel, ?_, ?_, ?_⟩
  · rw [heq, entityLoop_elementsTouched]
  · intro i h
    rw [heq] at h
    rcases entityLoop_entityRender_mem ctx fuel entityItems _ _ i h with h0 | ⟨_, e, hg, _, hc⟩
    · rcases hproxy with hp | hp <;> simp [hp] at h0
    · exact ⟨e, hg, by simp [culled, hc]⟩
  · intro hpos fuel' hf
    have hst : (renderElement ctx fuel' entityItems args).stuck = false := by
      obtain ⟨proxy', _, heq'⟩ := renderElement_eq ctx fuel' entityItems args
      rw [heq']
      exact entityLoop_not_stuck ctx fuel' entityItems _ _ rfl
        (fun e he hv => renderCheck_of_not_hangs ctx e (hpos e he hv) fuel' hf)
    exact ⟨hst, hcount fuel' hst⟩
  · rintro ⟨e, he, hv, hh⟩ fuel'
    obtain ⟨i, hi⟩ := List.mem_iff_getElem?.mp he
    have hilt : i < entityItems.length := by
      by_contra hge
      rw [List.getElem?_eq_none (by omega)] at hi
      exact absurd hi (by simp)
    obtain ⟨proxy', _, heq'⟩ := renderElement_eq ctx fuel' entityItems args
    rw [heq', hn]
    apply entityLoop_stuck_of_none ctx fuel' entityItems _ _ i e hilt hi hv
    simp [renderCheck, shouldRenderEntity_of_hangs ctx _ _ hh fuel']

/-- Witness for the amended C8: a visible far entity, a visible near one, a hidden far
    one and a visible one of size zero; the call returns and exactly the first is
    counted. -/
theorem renderElement_counters_witness :
    [farEntity, nearEntity, hiddenFarEntity, zeroSizeEntity].length < 65536 ∧
    (renderElement sampleContext 165 [farEntity, nearEntity, hiddenFarEntity, zeroSizeEntity]
        freshArgs).stuck = false ∧
    ([farEntity, nearEntity, hiddenFarEntity, zeroSizeEntity].filter
        (culled sampleContext 165)).length = 1 ∧
    (renderElement sampleContext 165 [farEntity, nearEntity, hiddenFarEntity, zeroSizeEntity]
        freshArgs).args._itemsOutOfView
      = freshArgs._itemsOutOfView
        + ([farEntity, nearEntity, hiddenFarEntity, zeroSizeEntity].filter
            (culled sampleContext 165)).length := by
  have hf := renderCheck_samples.2.1 165 (by decide)
  have hn := renderCheck_samples.1 165 (by decide)
  have hh := renderCheck_samples.2.2.1 165 (by decide)
  have hz := renderCheck_samples.2.2.2 165 (by decide)
  have hvf : farEntity.isVisible = true := rfl
  have hvn : nearEntity.isVisible = true := rfl
  have hvh : hiddenFarEntity.isVisible = false := rfl
  have hvz : zeroSizeEntity.isVisible = true := rfl
  have hst : (renderElement sampleContext 165
      [farEntity, nearEntity, hiddenFarEntity, zeroSizeEntity] freshArgs).stuck = false := by
    obtain ⟨proxy, _, heq⟩ := renderElement_eq sampleContext 165
      [farEntity, nearEntity, hiddenFarEntity, zeroSizeEntity] freshArgs
    rw [heq]
    apply entityLoop_not_stuck _ _ _ _ _ rfl
    intro e he _
    simp only [List.mem_cons, List.mem_singleton, List.not_mem_nil, or_false] at he
    rcases he with rfl | rfl | rfl | rfl
    · rw [hf]; simp
    · rw [hn]; simp
    · rw [hh]; simp
    · rw [hz]; simp
  have hcount : ([farEntity, nearEntity, hiddenFarEntity, zeroSizeEntity].filter
      (culled sampleContext 165)).length = 1 := by
    simp [List.filter, culled, hf, hn, hh, hz, hvf, hvn, hvh, hvz]
  exact ⟨by decide, hst, hcount,
    (renderElement_counters sampleContext 165
      [farEntity, nearEntity, hiddenFarEntity, zeroSizeEntity] freshArgs (by decide)).2.1 hst⟩

/-! ## Releasing models -/

/-- C6: called from a thread other than the owner thread, `releaseModel` deletes nothing
    and only appends the model to `_releasedModels`, the rest of the state unchanged;
    called from the owner thread it leaves the list alone and deletes just its argument;
    `deleteReleasedModels` deletes every listed model, in order, and leaves the list
    empty; and `render` ends with exactly that step, so after `render` the list is empty
    and the models listed before its clean-up have been deleted. -/
theorem releaseModel_foreign_thread_defers (r : ModelStore) (currentThread model : Nat)
    (hforeign : currentThread ≠ r.thread) :
    releaseModel currentThread model r
      = { r with _releasedModels := r._releasedModels ++ [model] } ∧
    (releaseModel currentThread model r).deleted = r.deleted ∧
    (releaseModel currentThread model r).thread = r.thread ∧
    releaseModel r.thread model r = { r with deleted := r.deleted ++ [model] } ∧
    (∀ q : ModelStore,
      (deleteReleasedModels q)._releasedModels = [] ∧
      (deleteReleasedModels q).deleted = q.deleted ++ q._releasedModels ∧
      (deleteReleasedModels q).thread = q.thread) ∧
    (deleteReleasedModels (releaseModel currentThread model r)).deleted
      = r.deleted ++ (r._releasedModels ++ [model]) ∧
    (∀ (octreeRendererRender : ModelStore → ModelStore) (q : ModelStore),
      render octreeRendererRender q = deleteReleasedModels (octreeRendererRender q) ∧
      (render octreeRendererRender q)._releasedModels = [] ∧
      (render octreeRendererRender q).deleted
        = (octreeRendererRender q).deleted ++ (octreeRendererRender q)._releasedModels) := by
  have hdel : ∀ q : ModelStore,
      (deleteReleasedModels q)._releasedModels = [] ∧
      (deleteReleasedModels q).deleted = q.deleted ++ q._releasedModels ∧
      (deleteReleasedModels q).thread = q.thread := by
    intro q
    unfold deleteReleasedModels
    by_cases h : q._releasedModels.length > 0
    · simp [h]
    · have hnil : q._releasedModels = [] := by
        cases hq : q._releasedModels with
        | nil => rfl
        | cons a t => rw [hq] at h; simp at h
      simp [hnil]
  have hrel : releaseModel currentThread model r
      = { r with _releasedModels := r._releasedModels ++ [model] } := by
    simp [releaseModel, hforeign]
  refine ⟨hrel, by rw [hrel], by rw [hrel], by simp [releaseModel], hdel, ?_, ?_⟩
  · rw [(hdel _).2.1, hrel]
  · intro base q
    exact ⟨rfl, (hdel _).1, (hdel _).2.1⟩

/-- Witness for C6: thread `2` releases model `9` on the sample renderer owned by
    thread `1`. -/
theorem releaseModel_foreign_thread_defers_witness :
    (2 : Nat) ≠ sampleStore.thread ∧
      releaseModel 2 9 sampleStore
        = { sampleStore with _releasedModels := sampleStore._releasedModels ++ [9] } :=
  ⟨by decide, (releaseModel_foreign_thread_defers sampleStore 2 9 (by decide)).1⟩

end EntityTreeRenderer

namespace controller

/-! ## Controller channel ordinals -/

/-- C5: the buttons `A, B, X, Y, BACK, GUIDE, START, LS, RS, LB, RB, DU, DD, DL, DR` have
    the values `0` to `14` in that order; the axes `LX, LY, RX, RY, LT, RT` have the
    values `0` to `5`, `NUM_STANDARD_AXES = 6`, `LZ = LT` and `RZ = RT`; and the button
    channels below `NUM_STANDARD_BUTTONS` have the consecutive values
    `0, 1, …, NUM_STANDARD_BUTTONS - 1`, so they are pairwise distinct. -/
theorem standard_channel_ordinals :
    [StandardButtonChannel.A, StandardButtonChannel.B, StandardButtonChannel.X,
      StandardButtonChannel.Y, StandardButtonChannel.BACK, StandardButtonChannel.GUIDE,
      StandardButtonChannel.START, StandardButtonChannel.LS, StandardButtonChannel.RS,
      StandardButtonChannel.LB, StandardButtonChannel.RB, StandardButtonChannel.DU,
      StandardButtonChannel.DD, StandardButtonChannel.DL, StandardButtonChannel.DR]
      = [0, 1, 2, 3, 4, 5, 6, 7, 8, 9, 10, 11, 12, 13, 14] ∧
    [StandardAxisChannel.LX, StandardAxisChannel.LY, StandardAxisChannel.RX,
      StandardAxisChannel.RY, StandardAxisChannel.LT, StandardAxisChannel.RT]
      = [0, 1, 2, 3, 4, 5] ∧
    StandardAxisChannel.NUM_STANDARD_AXES = 6 ∧
    StandardAxisChannel.LZ = StandardAxisChannel.LT ∧
    StandardAxisChannel.RZ = StandardAxisChannel.RT ∧
    StandardButtonChannel.channels
      = (List.range StandardButtonChannel.NUM_STANDARD_BUTTONS.toNat).map Int.ofNat ∧
    StandardButtonChannel.NUM_STANDARD_BUTTONS = StandardButtonChannel.channels.length ∧
    StandardButtonChannel.channels.Nodup ∧
    (∀ c ∈ StandardButtonChannel.channels,
      0 ≤ c ∧ c < StandardButtonChannel.NUM_STANDARD_BUTTONS) := by
  refine ⟨by decide, by decide, by decide, rfl, rfl, by decide, by decide, by decide, by decide⟩

end controller
